import Mathlib

/-!
Verification development for the match-outcome prediction and calibration
engine of the kick-mcsr-bot repository.

The TypeScript sources are shallowly embedded into Lean:
- JavaScript numbers are modelled by `ℚ` (all values arising in the embedded
  fragments are finite; `Number.isFinite` checks are modelled by `Option ℚ`,
  `none` standing for a missing or non-finite value).
- `Math.pow(0.5, x)`, `Math.exp` and `Math.log` are transcendental, so the
  embedded functions take the relevant real function as an explicit
  parameter (`halfPow`, `expF`, `logF`); theorems either hold for every such
  parameter or assume only the algebraic facts the proof needs
  (e.g. `halfPow (x+1) = halfPow x / 2`).
- `Array.prototype.sort` (stable, comparator-based) is modelled by a stable
  insertion sort `sortByLe` parameterised by a boolean `le` relation.
-/

namespace JsUtil

/-- Embedding of the repeated TypeScript helper
`clamp(value, min, max) = Math.min(max, Math.max(min, value))`. -/
def clamp (value lo hi : ℚ) : ℚ := min hi (max lo value)

theorem clamp_le (value lo hi : ℚ) : clamp value lo hi ≤ hi := min_le_left _ _

theorem le_clamp (value lo hi : ℚ) (h : lo ≤ hi) : lo ≤ clamp value lo hi :=
  le_min h (le_max_left _ _)

theorem clamp_mono (lo hi : ℚ) {x y : ℚ} (h : x ≤ y) :
    clamp x lo hi ≤ clamp y lo hi :=
  min_le_min le_rfl (max_le_max le_rfl h)

theorem clamp_of_mem {value lo hi : ℚ} (h1 : lo ≤ value) (h2 : value ≤ hi) :
    clamp value lo hi = value := by
  unfold clamp
  rw [max_eq_right h1, min_eq_right h2]

/-- Insert into a sorted list, modelling one step of a stable sort: the new
element goes before the first element `y` with `le x y`. -/
def insertByLe {α : Type} (le : α → α → Bool) (x : α) : List α → List α
  | [] => [x]
  | y :: ys => if le x y then x :: y :: ys else y :: insertByLe le x ys

/-- Stable insertion sort modelling JavaScript `Array.prototype.sort` with a
comparator: `le a b` holds when the comparator returns a value `≤ 0` on
`(a, b)`, i.e. when `a` may be placed before `b`. -/
def sortByLe {α : Type} (le : α → α → Bool) (l : List α) : List α :=
  l.foldr (insertByLe le) []

theorem insertByLe_perm {α : Type} (le : α → α → Bool) (x : α) (l : List α) :
    List.Perm (insertByLe le x l) (x :: l) := by
  induction l with
  | nil => simp [insertByLe]
  | cons y ys ih =>
      by_cases h : le x y = true
      · simp [insertByLe, h]
      · simp only [insertByLe, h]
        rw [if_neg (by simp [h])]
        exact List.Perm.trans (List.Perm.cons y ih) (List.Perm.swap x y ys)

theorem sortByLe_perm {α : Type} (le : α → α → Bool) (l : List α) :
    List.Perm (sortByLe le l) l := by
  induction l with
  | nil => simp [sortByLe]
  | cons y ys ih =>
      exact List.Perm.trans (insertByLe_perm le y _) (List.Perm.cons y ih)

theorem length_sortByLe {α : Type} (le : α → α → Bool) (l : List α) :
    (sortByLe le l).length = l.length :=
  (sortByLe_perm le l).length_eq

theorem mem_sortByLe {α : Type} (le : α → α → Bool) (l : List α) (x : α) :
    x ∈ sortByLe le l ↔ x ∈ l :=
  (sortByLe_perm le l).mem_iff

theorem insertByLe_pairwise {α : Type} (le : α → α → Bool)
    (htot : ∀ a b, le a b = true ∨ le b a = true)
    (htrans : ∀ a b c, le a b = true → le b c = true → le a c = true)
    (x : α) (l : List α) (hl : l.Pairwise (fun a b => le a b = true)) :
    (insertByLe le x l).Pairwise (fun a b => le a b = true) := by
  induction l with
  | nil => simp [insertByLe]
  | cons y ys ih =>
      rcases List.pairwise_cons.mp hl with ⟨hy, hys⟩
      by_cases h : le x y = true
      · simp only [insertByLe, h, if_pos]
        refine List.pairwise_cons.mpr ⟨?_, hl⟩
        intro z hz
        rcases List.mem_cons.mp hz with hz | hz
        · subst hz; exact h
        · exact htrans x y z h (hy z hz)
      · simp only [insertByLe]
        rw [if_neg (by simp [h])]
        refine List.pairwise_cons.mpr ⟨?_, ih hys⟩
        intro z hz
        rcases List.mem_cons.mp ((insertByLe_perm le x ys).mem_iff.mp hz) with hz | hz
        · subst hz
          rcases htot y z with hyz | hzy
          · exact hyz
          · exact absurd hzy h
        · exact hy z hz

theorem sortByLe_pairwise {α : Type} (le : α → α → Bool)
    (htot : ∀ a b, le a b = true ∨ le b a = true)
    (htrans : ∀ a b c, le a b = true → le b c = true → le a c = true)
    (l : List α) :
    (sortByLe le l).Pairwise (fun a b => le a b = true) := by
  induction l with
  | nil => simp [sortByLe]
  | cons y ys ih => exact insertByLe_pairwise le htot htrans y _ ih

/-- In a `Pairwise R` list, the head is related to the last element (or they
coincide, for singleton lists). -/
theorem pairwise_head_getLast {α : Type} {R : α → α → Prop} :
    ∀ (l : List α), l.Pairwise R → ∀ hd lst, l.head? = some hd →
      l.getLast? = some lst → R hd lst ∨ hd = lst
  | [], _, _, _, h, _ => by simp at h
  | [a], _, hd, lst, hhd, hlst => by
      simp at hhd hlst
      right; exact hhd.symm.trans hlst
  | a :: b :: rest, hp, hd, lst, hhd, hlst => by
      simp only [List.head?_cons, Option.some.injEq] at hhd
      subst hhd
      rcases List.pairwise_cons.mp hp with ⟨ha, _⟩
      left
      apply ha
      have hlst2 : (b :: rest).getLast? = some lst := by
        rw [← hlst, List.getLast?_cons_cons]
      exact List.mem_of_mem_getLast? hlst2

end JsUtil

namespace PredictFeatures

/-- Embedding of `PlayerMatchView` from `predictFeatures.ts`. Optional
numeric fields are `Option ℚ`; `none` stands for a missing or non-finite
value (`Number.isFinite` failing). -/
structure PlayerMatchView where
  playedAt : ℚ
  isWin : Bool
  eloDelta : Option ℚ := none
  opponentEloAfter : Option ℚ := none
  durationMs : Option ℚ := none
deriving DecidableEq

/-- Embedding of the `streak` component of `PlayerFeatureStats`. -/
structure Streak where
  current : ℕ
  best : ℕ
deriving DecidableEq

/-- Embedding of the `durations` component of `PlayerFeatureStats` (both
fields are always set together in the source, so they are plain here). -/
structure WinDurations where
  averageWin : ℚ
  bestWin : ℚ
deriving DecidableEq

/-- Embedding of `PlayerFeatureStats` from `predictFeatures.ts`. -/
structure PlayerFeatureStats where
  player : String
  sample : ℕ
  wins : ℕ
  losses : ℕ
  winRate : ℚ
  recencyWinRate : Option ℚ := none
  totalEloDelta : ℚ
  avgEloDelta : Option ℚ := none
  avgOpponentElo : Option ℚ := none
  durations : Option WinDurations := none
  streak : Streak
  newestMatchAt : Option ℚ := none
  oldestMatchAt : Option ℚ := none
deriving DecidableEq

/-- Embedding of `FeatureOptions` from `predictFeatures.ts`. -/
structure FeatureOptions where
  limit : Option ℕ := none
  decayMs : Option ℚ := none
  anchorMs : Option ℚ := none

def DEFAULT_LIMIT : ℕ := 20

def DEFAULT_DECAY_MS : ℚ := 2 * 24 * 60 * 60 * 1000

/-- `Math.round`: round half toward positive infinity. -/
def jsRound (x : ℚ) : ℚ := ((⌊x + 1/2⌋ : ℤ) : ℚ)

/-- The mutable locals of the aggregation loop of `computePlayerFeatures`
(`predictFeatures.ts` lines 57-71), gathered into one record. -/
structure FeatureAccum where
  wins : ℕ := 0
  losses : ℕ := 0
  totalEloDelta : ℚ := 0
  eloDeltaSamples : ℕ := 0
  oppEloTotal : ℚ := 0
  oppEloSamples : ℕ := 0
  winDurations : List ℚ := []
  recencyWinWeighted : ℚ := 0
  recencyWeight : ℚ := 0
  currentStreak : ℕ := 0
  bestStreak : ℕ := 0
  rollingStreak : ℕ := 0
  trackingCurrent : Bool := true

def initAccum : FeatureAccum := {}

/-- One iteration of the aggregation loop (`predictFeatures.ts` lines
73-107). `halfPow` models `x ↦ Math.pow(0.5, x)`. -/
def featureStep (halfPow : ℚ → ℚ) (anchor decayMs : ℚ)
    (acc : FeatureAccum) (m : PlayerMatchView) : FeatureAccum :=
  let ageMs := max 0 (anchor - m.playedAt)
  let weight := halfPow (ageMs / decayMs)
  let acc1 :=
    if m.isWin then
      { acc with
        wins := acc.wins + 1
        rollingStreak := acc.rollingStreak + 1
        bestStreak := max acc.bestStreak (acc.rollingStreak + 1)
        currentStreak :=
          if acc.trackingCurrent then acc.currentStreak + 1 else acc.currentStreak
        winDurations :=
          match m.durationMs with
          | some d => acc.winDurations ++ [d]
          | none => acc.winDurations
        recencyWinWeighted := acc.recencyWinWeighted + weight }
    else
      { acc with
        losses := acc.losses + 1
        rollingStreak := 0
        trackingCurrent := false }
  let acc2 := { acc1 with recencyWeight := acc1.recencyWeight + weight }
  let acc3 :=
    match m.eloDelta with
    | some d =>
        { acc2 with
          totalEloDelta := acc2.totalEloDelta + d
          eloDeltaSamples := acc2.eloDeltaSamples + 1 }
    | none => acc2
  match m.opponentEloAfter with
  | some e =>
      { acc3 with
        oppEloTotal := acc3.oppEloTotal + e
        oppEloSamples := acc3.oppEloSamples + 1 }
  | none => acc3

/-- The effective window limit `Math.max(1, options.limit ?? DEFAULT_LIMIT)`
(`predictFeatures.ts` line 49). -/
def effectiveLimit (options : FeatureOptions) : ℕ :=
  max 1 (options.limit.getD DEFAULT_LIMIT)

/-- The sorted-and-trimmed match window of `computePlayerFeatures`
(`predictFeatures.ts` lines 53-54): sort descending by `playedAt` and keep
the first `limit` entries. -/
def trimmedViews (views : List PlayerMatchView) (options : FeatureOptions) :
    List PlayerMatchView :=
  (JsUtil.sortByLe (fun a b => decide (b.playedAt ≤ a.playedAt)) views).take
    (effectiveLimit options)

/-- The record built from the aggregation loop's accumulator
(`predictFeatures.ts` lines 109-142). -/
def finalizeStats (halfPow : ℚ → ℚ) (trimmed : List PlayerMatchView)
    (playerName : String) (options : FeatureOptions) (nowMs : ℚ) :
    PlayerFeatureStats :=
  let anchor := options.anchorMs.getD nowMs
  let decayMs := max 1 (options.decayMs.getD DEFAULT_DECAY_MS)
  let acc := trimmed.foldl (featureStep halfPow anchor decayMs) initAccum
  let sample := acc.wins + acc.losses
  { player := playerName
    sample := sample
    wins := acc.wins
    losses := acc.losses
    winRate := if 0 < sample then (acc.wins : ℚ) / (sample : ℚ) else 0
    recencyWinRate :=
      if 0 < acc.recencyWeight then some (acc.recencyWinWeighted / acc.recencyWeight)
      else none
    totalEloDelta := acc.totalEloDelta
    avgEloDelta :=
      if 0 < acc.eloDeltaSamples then
        some (acc.totalEloDelta / (acc.eloDeltaSamples : ℚ))
      else none
    avgOpponentElo :=
      if 0 < acc.oppEloSamples then some (acc.oppEloTotal / (acc.oppEloSamples : ℚ))
      else none
    durations :=
      match acc.winDurations with
      | [] => none
      | d :: ds =>
          some
            { averageWin := jsRound ((d :: ds).sum / ((d :: ds).length : ℚ))
              bestWin := ds.foldl min d }
    streak := { current := acc.currentStreak, best := acc.bestStreak }
    newestMatchAt := trimmed.head?.map (fun v => v.playedAt)
    oldestMatchAt := trimmed.getLast?.map (fun v => v.playedAt) }

/-- Embedding of `computePlayerFeatures` (`predictFeatures.ts` lines 42-143)
at the `PlayerMatchView` level: `views` is the output of
`normalizeMatchesForPlayer(matches, targetNorm)` (the per-record projection,
whose name-normalisation and winner-resolution happen upstream). `nowMs`
models the impure default anchor `Date.now()`. -/
def computePlayerFeatures (halfPow : ℚ → ℚ) (views : List PlayerMatchView)
    (playerName : String) (options : FeatureOptions) (nowMs : ℚ) :
    Option PlayerFeatureStats :=
  let trimmed := trimmedViews views options
  if trimmed.isEmpty then none
  else some (finalizeStats halfPow trimmed playerName options nowMs)

theorem computePlayerFeatures_eq_some {halfPow views playerName options nowMs stats}
    (hres : computePlayerFeatures halfPow views playerName options nowMs = some stats) :
    trimmedViews views options ≠ [] ∧
      stats = finalizeStats halfPow (trimmedViews views options) playerName options nowMs := by
  unfold computePlayerFeatures at hres
  by_cases h : (trimmedViews views options).isEmpty
  · simp [h] at hres
  · simp only [h, Bool.false_eq_true, if_false, Option.some.injEq] at hres
    exact ⟨by simpa [List.isEmpty_iff] using h, hres.symm⟩

end PredictFeatures

namespace PredictFeatures

theorem featureStep_wins (hp : ℚ → ℚ) (a d : ℚ) (acc : FeatureAccum)
    (m : PlayerMatchView) :
    (featureStep hp a d acc m).wins = if m.isWin then acc.wins + 1 else acc.wins := by
  rcases m with ⟨p, w, e, o, dur⟩
  cases w <;> cases e <;> cases o <;> simp [featureStep]

theorem featureStep_losses (hp : ℚ → ℚ) (a d : ℚ) (acc : FeatureAccum)
    (m : PlayerMatchView) :
    (featureStep hp a d acc m).losses =
      if m.isWin then acc.losses else acc.losses + 1 := by
  rcases m with ⟨p, w, e, o, dur⟩
  cases w <;> cases e <;> cases o <;> simp [featureStep]

theorem featureStep_currentStreak (hp : ℚ → ℚ) (a d : ℚ) (acc : FeatureAccum)
    (m : PlayerMatchView) :
    (featureStep hp a d acc m).currentStreak =
      if m.isWin then
        (if acc.trackingCurrent then acc.currentStreak + 1 else acc.currentStreak)
      else acc.currentStreak := by
  rcases m with ⟨p, w, e, o, dur⟩
  cases w <;> cases e <;> cases o <;> simp [featureStep]

theorem featureStep_bestStreak (hp : ℚ → ℚ) (a d : ℚ) (acc : FeatureAccum)
    (m : PlayerMatchView) :
    (featureStep hp a d acc m).bestStreak =
      if m.isWin then max acc.bestStreak (acc.rollingStreak + 1)
      else acc.bestStreak := by
  rcases m with ⟨p, w, e, o, dur⟩
  cases w <;> cases e <;> cases o <;> simp [featureStep]

theorem featureStep_rollingStreak (hp : ℚ → ℚ) (a d : ℚ) (acc : FeatureAccum)
    (m : PlayerMatchView) :
    (featureStep hp a d acc m).rollingStreak =
      if m.isWin then acc.rollingStreak + 1 else 0 := by
  rcases m with ⟨p, w, e, o, dur⟩
  cases w <;> cases e <;> cases o <;> simp [featureStep]

theorem featureStep_trackingCurrent (hp : ℚ → ℚ) (a d : ℚ) (acc : FeatureAccum)
    (m : PlayerMatchView) :
    (featureStep hp a d acc m).trackingCurrent =
      if m.isWin then acc.trackingCurrent else false := by
  rcases m with ⟨p, w, e, o, dur⟩
  cases w <;> cases e <;> cases o <;> simp [featureStep]

/-- Each loop iteration adds exactly one match to `wins + losses`. -/
theorem foldl_wins_add_losses (hp : ℚ → ℚ) (a d : ℚ) :
    ∀ (l : List PlayerMatchView) (acc : FeatureAccum),
      (l.foldl (featureStep hp a d) acc).wins +
          (l.foldl (featureStep hp a d) acc).losses =
        acc.wins + acc.losses + l.length
  | [], acc => by simp
  | m :: rest, acc => by
      have ih := foldl_wins_add_losses hp a d rest (featureStep hp a d acc m)
      simp only [List.foldl_cons, ih, featureStep_wins, featureStep_losses,
        List.length_cons]
      by_cases hw : m.isWin <;> simp [hw] <;> omega

/-- Invariant of the streak-tracking locals: while `trackingCurrent` is set
the current streak equals the rolling streak, and both are bounded by the
best streak. -/
def StreakInv (acc : FeatureAccum) : Prop :=
  (acc.trackingCurrent = true → acc.currentStreak = acc.rollingStreak) ∧
    acc.currentStreak ≤ acc.bestStreak ∧ acc.rollingStreak ≤ acc.bestStreak

theorem streakInv_init : StreakInv initAccum :=
  ⟨fun _ => rfl, le_refl _, le_refl _⟩

theorem streakInv_step (hp : ℚ → ℚ) (a d : ℚ) (acc : FeatureAccum)
    (m : PlayerMatchView) (h : StreakInv acc) :
    StreakInv (featureStep hp a d acc m) := by
  rcases h with ⟨htrack, hcur, hroll⟩
  refine ⟨?_, ?_, ?_⟩ <;>
    simp only [featureStep_currentStreak, featureStep_bestStreak,
      featureStep_rollingStreak, featureStep_trackingCurrent] <;>
    by_cases hw : m.isWin <;>
    by_cases ht : acc.trackingCurrent <;>
    simp [hw, ht] <;>
    first
      | (intro; omega)
      | omega
      | (exact fun hfalse => absurd hfalse (by simp [ht]))
      | (have hcr := htrack ht; omega)
      | (exact le_trans hcur (le_max_left _ _))
      | (exact le_trans hroll (le_max_left _ _))

theorem streakInv_foldl (hp : ℚ → ℚ) (a d : ℚ) :
    ∀ (l : List PlayerMatchView) (acc : FeatureAccum), StreakInv acc →
      StreakInv (l.foldl (featureStep hp a d) acc)
  | [], _, h => h
  | m :: rest, acc, h =>
      streakInv_foldl hp a d rest _ (streakInv_step hp a d acc m h)

end PredictFeatures

namespace PredictFeatures

/-- The trimmed window is sorted descending by `playedAt`. -/
theorem trimmedViews_pairwise (views : List PlayerMatchView)
    (options : FeatureOptions) :
    (trimmedViews views options).Pairwise
      (fun a b => b.playedAt ≤ a.playedAt) := by
  have hsorted := JsUtil.sortByLe_pairwise
    (fun a b : PlayerMatchView => decide (b.playedAt ≤ a.playedAt))
    (fun a b => by
      rcases le_total b.playedAt a.playedAt with h | h
      · exact Or.inl (decide_eq_true h)
      · exact Or.inr (decide_eq_true h))
    (fun a b c hab hbc =>
      decide_eq_true (le_trans (of_decide_eq_true hbc) (of_decide_eq_true hab)))
    views
  have htake := List.Pairwise.sublist
    (List.take_sublist (effectiveLimit options) _) hsorted
  exact htake.imp (fun h => of_decide_eq_true h)

theorem trimmedViews_length_le (views : List PlayerMatchView)
    (options : FeatureOptions) :
    (trimmedViews views options).length ≤ effectiveLimit options := by
  unfold trimmedViews
  simpa using List.length_take_le _ _

theorem finalizeStats_wins (hp : ℚ → ℚ) (trimmed : List PlayerMatchView)
    (n : String) (o : FeatureOptions) (now : ℚ) :
    (finalizeStats hp trimmed n o now).wins =
      (trimmed.foldl
        (featureStep hp (o.anchorMs.getD now) (max 1 (o.decayMs.getD DEFAULT_DECAY_MS)))
        initAccum).wins := rfl

theorem finalizeStats_losses (hp : ℚ → ℚ) (trimmed : List PlayerMatchView)
    (n : String) (o : FeatureOptions) (now : ℚ) :
    (finalizeStats hp trimmed n o now).losses =
      (trimmed.foldl
        (featureStep hp (o.anchorMs.getD now) (max 1 (o.decayMs.getD DEFAULT_DECAY_MS)))
        initAccum).losses := rfl

theorem finalizeStats_sample (hp : ℚ → ℚ) (trimmed : List PlayerMatchView)
    (n : String) (o : FeatureOptions) (now : ℚ) :
    (finalizeStats hp trimmed n o now).sample =
      (finalizeStats hp trimmed n o now).wins +
        (finalizeStats hp trimmed n o now).losses := rfl

theorem finalizeStats_streak (hp : ℚ → ℚ) (trimmed : List PlayerMatchView)
    (n : String) (o : FeatureOptions) (now : ℚ) :
    (finalizeStats hp trimmed n o now).streak =
      { current :=
          (trimmed.foldl
            (featureStep hp (o.anchorMs.getD now)
              (max 1 (o.decayMs.getD DEFAULT_DECAY_MS))) initAccum).currentStreak
        best :=
          (trimmed.foldl
            (featureStep hp (o.anchorMs.getD now)
              (max 1 (o.decayMs.getD DEFAULT_DECAY_MS))) initAccum).bestStreak } := rfl

theorem finalizeStats_winRate (hp : ℚ → ℚ) (trimmed : List PlayerMatchView)
    (n : String) (o : FeatureOptions) (now : ℚ) :
    (finalizeStats hp trimmed n o now).winRate =
      if 0 < (finalizeStats hp trimmed n o now).sample then
        ((finalizeStats hp trimmed n o now).wins : ℚ) /
          ((finalizeStats hp trimmed n o now).sample : ℚ)
      else 0 := rfl

theorem finalizeStats_newestMatchAt (hp : ℚ → ℚ) (trimmed : List PlayerMatchView)
    (n : String) (o : FeatureOptions) (now : ℚ) :
    (finalizeStats hp trimmed n o now).newestMatchAt =
      trimmed.head?.map (fun v => v.playedAt) := rfl

theorem finalizeStats_oldestMatchAt (hp : ℚ → ℚ) (trimmed : List PlayerMatchView)
    (n : String) (o : FeatureOptions) (now : ℚ) :
    (finalizeStats hp trimmed n o now).oldestMatchAt =
      trimmed.getLast?.map (fun v => v.playedAt) := rfl

theorem finalizeStats_sample_eq_length (hp : ℚ → ℚ)
    (trimmed : List PlayerMatchView) (n : String) (o : FeatureOptions) (now : ℚ) :
    (finalizeStats hp trimmed n o now).sample = trimmed.length := by
  rw [finalizeStats_sample, finalizeStats_wins, finalizeStats_losses]
  have h := foldl_wins_add_losses hp (o.anchorMs.getD now)
    (max 1 (o.decayMs.getD DEFAULT_DECAY_MS)) trimmed initAccum
  simpa [initAccum] using h

end PredictFeatures

open PredictFeatures in
/-- C5: for every non-empty match window, the `PlayerFeatureStats` returned
by feature extraction satisfies `sample = wins + losses`,
`streak.current ≤ streak.best`, `newestMatchAt ≥ oldestMatchAt`,
`winRate ∈ [0, 1]`, and the number of matches aggregated is at most the
configured limit (assumed positive, as the source coerces it with
`Math.max(1, ·)`). -/
theorem C5_feature_extraction_invariants
    (halfPow : ℚ → ℚ) (views : List PlayerMatchView) (playerName : String)
    (options : FeatureOptions) (nowMs : ℚ) (stats : PlayerFeatureStats)
    (hres : computePlayerFeatures halfPow views playerName options nowMs = some stats)
    (hlim : 1 ≤ options.limit.getD DEFAULT_LIMIT) :
    stats.sample = stats.wins + stats.losses ∧
      stats.streak.current ≤ stats.streak.best ∧
      (∃ tNew tOld, stats.newestMatchAt = some tNew ∧
        stats.oldestMatchAt = some tOld ∧ tOld ≤ tNew) ∧
      0 ≤ stats.winRate ∧ stats.winRate ≤ 1 ∧
      stats.sample ≤ options.limit.getD DEFAULT_LIMIT := by
  obtain ⟨hne, hstats⟩ := computePlayerFeatures_eq_some hres
  subst hstats
  have hlen : (finalizeStats halfPow (trimmedViews views options) playerName
      options nowMs).sample = (trimmedViews views options).length :=
    finalizeStats_sample_eq_length _ _ _ _ _
  have hpos : 0 < (trimmedViews views options).length :=
    List.length_pos.mpr hne
  refine ⟨finalizeStats_sample _ _ _ _ _, ?_, ?_, ?_, ?_, ?_⟩
  · have hinv := streakInv_foldl halfPow (options.anchorMs.getD nowMs)
      (max 1 (options.decayMs.getD DEFAULT_DECAY_MS)) (trimmedViews views options)
      initAccum streakInv_init
    rw [finalizeStats_streak]
    exact hinv.2.1
  · have hhd := List.head?_eq_head hne
    have hlst := List.getLast?_eq_getLast (trimmedViews views options) hne
    refine ⟨((trimmedViews views options).head hne).playedAt,
      ((trimmedViews views options).getLast hne).playedAt, ?_, ?_, ?_⟩
    · rw [finalizeStats_newestMatchAt, hhd]; rfl
    · rw [finalizeStats_oldestMatchAt, hlst]; rfl
    · rcases JsUtil.pairwise_head_getLast _ (trimmedViews_pairwise views options)
        _ _ hhd hlst with h | h
      · exact h
      · rw [h]
  · rw [finalizeStats_winRate]
    rw [if_pos (by rw [hlen]; exact hpos)]
    positivity
  · rw [finalizeStats_winRate]
    rw [if_pos (by rw [hlen]; exact hpos)]
    have hwle : (finalizeStats halfPow (trimmedViews views options) playerName
        options nowMs).wins ≤ (finalizeStats halfPow (trimmedViews views options)
        playerName options nowMs).sample := by
      rw [finalizeStats_sample]
      exact Nat.le_add_right _ _
    have hspos : (0 : ℚ) < ((finalizeStats halfPow (trimmedViews views options)
        playerName options nowMs).sample : ℚ) := by
      rw [hlen]; exact_mod_cast hpos
    rw [div_le_one hspos]
    exact_mod_cast hwle
  · rw [hlen]
    have h1 := trimmedViews_length_le views options
    rw [effectiveLimit, max_eq_right hlim] at h1
    exact h1

def c5WitnessViews : List PredictFeatures.PlayerMatchView :=
  [{ playedAt := 100, isWin := true }, { playedAt := 50, isWin := false }]

def c5WitnessOptions : PredictFeatures.FeatureOptions :=
  { limit := some 5, decayMs := some 1000, anchorMs := some 100 }

def c5WitnessStats : PredictFeatures.PlayerFeatureStats :=
  { player := "p"
    sample := 2
    wins := 1
    losses := 1
    winRate := 1/2
    recencyWinRate := some (1/2)
    totalEloDelta := 0
    streak := { current := 1, best := 1 }
    newestMatchAt := some 100
    oldestMatchAt := some 50 }

theorem C5_feature_extraction_invariants_witness :
    (PredictFeatures.computePlayerFeatures (fun _ => 1) c5WitnessViews "p"
        c5WitnessOptions 0 = some c5WitnessStats ∧
      1 ≤ c5WitnessOptions.limit.getD PredictFeatures.DEFAULT_LIMIT) ∧
      (c5WitnessStats.sample = c5WitnessStats.wins + c5WitnessStats.losses ∧
        c5WitnessStats.streak.current ≤ c5WitnessStats.streak.best ∧
        (∃ tNew tOld, c5WitnessStats.newestMatchAt = some tNew ∧
          c5WitnessStats.oldestMatchAt = some tOld ∧ tOld ≤ tNew) ∧
        0 ≤ c5WitnessStats.winRate ∧ c5WitnessStats.winRate ≤ 1 ∧
        c5WitnessStats.sample ≤ c5WitnessOptions.limit.getD PredictFeatures.DEFAULT_LIMIT) :=
  ⟨⟨by norm_num [PredictFeatures.computePlayerFeatures, PredictFeatures.trimmedViews,
      PredictFeatures.effectiveLimit, PredictFeatures.finalizeStats,
      PredictFeatures.featureStep, PredictFeatures.initAccum, JsUtil.sortByLe,
      JsUtil.insertByLe, c5WitnessViews, c5WitnessOptions, c5WitnessStats,
      PredictFeatures.DEFAULT_DECAY_MS], by decide⟩,
    C5_feature_extraction_invariants (fun _ => 1) c5WitnessViews "p"
      c5WitnessOptions 0 c5WitnessStats
      (by norm_num [PredictFeatures.computePlayerFeatures, PredictFeatures.trimmedViews,
        PredictFeatures.effectiveLimit, PredictFeatures.finalizeStats,
        PredictFeatures.featureStep, PredictFeatures.initAccum, JsUtil.sortByLe,
        JsUtil.insertByLe, c5WitnessViews, c5WitnessOptions, c5WitnessStats,
        PredictFeatures.DEFAULT_DECAY_MS])
      (by decide)⟩

namespace PredictFeatures

theorem featureStep_recencyWeight (hp : ℚ → ℚ) (a d : ℚ) (acc : FeatureAccum)
    (m : PlayerMatchView) :
    (featureStep hp a d acc m).recencyWeight =
      acc.recencyWeight + hp (max 0 (a - m.playedAt) / d) := by
  rcases m with ⟨p, w, e, o, dur⟩
  cases w <;> cases e <;> cases o <;> simp [featureStep]

theorem featureStep_recencyWinWeighted (hp : ℚ → ℚ) (a d : ℚ) (acc : FeatureAccum)
    (m : PlayerMatchView) :
    (featureStep hp a d acc m).recencyWinWeighted =
      if m.isWin then acc.recencyWinWeighted + hp (max 0 (a - m.playedAt) / d)
      else acc.recencyWinWeighted := by
  rcases m with ⟨p, w, e, o, dur⟩
  cases w <;> cases e <;> cases o <;> simp [featureStep]

theorem finalizeStats_recencyWinRate (hp : ℚ → ℚ) (trimmed : List PlayerMatchView)
    (n : String) (o : FeatureOptions) (now : ℚ) :
    (finalizeStats hp trimmed n o now).recencyWinRate =
      (if 0 < (trimmed.foldl
          (featureStep hp (o.anchorMs.getD now)
            (max 1 (o.decayMs.getD DEFAULT_DECAY_MS))) initAccum).recencyWeight then
        some ((trimmed.foldl
            (featureStep hp (o.anchorMs.getD now)
              (max 1 (o.decayMs.getD DEFAULT_DECAY_MS))) initAccum).recencyWinWeighted /
          (trimmed.foldl
            (featureStep hp (o.anchorMs.getD now)
              (max 1 (o.decayMs.getD DEFAULT_DECAY_MS))) initAccum).recencyWeight)
      else none) := rfl

end PredictFeatures

open PredictFeatures in
/-- C8: feature extraction weights each match by `0.5^(age/decayMs)` (here
`halfPow` stands for `x ↦ Math.pow(0.5, x)`, assumed positive and halving
under `+1` at the two exponents that occur) and computes `recencyWinRate`
as weighted-win-sum / weighted-total; hence for a player with one win at
`t` and one loss at `t - 1000`, half-life 1000 ms and anchor `≥ t`,
`recencyWinRate = 2/3`, while the mirrored player (loss newer, win older)
gets `1/3`. -/
theorem C8_recency_weighting_scenario
    (halfPow : ℚ → ℚ) (t anchor w : ℚ) (playerName : String) (nowMs : ℚ)
    (hanchor : t ≤ anchor)
    (h0 : halfPow ((anchor - t) / 1000) = w)
    (h1 : halfPow ((anchor - t) / 1000 + 1) = w / 2)
    (hw : 0 < w) :
    (∃ stats, computePlayerFeatures halfPow
        [{ playedAt := t, isWin := true }, { playedAt := t - 1000, isWin := false }]
        playerName { decayMs := some 1000, anchorMs := some anchor } nowMs =
          some stats ∧
        stats.recencyWinRate = some (2/3)) ∧
    (∃ stats, computePlayerFeatures halfPow
        [{ playedAt := t, isWin := false }, { playedAt := t - 1000, isWin := true }]
        playerName { decayMs := some 1000, anchorMs := some anchor } nowMs =
          some stats ∧
        stats.recencyWinRate = some (1/3)) := by
  have hle : (t - 1000 : ℚ) ≤ t := by linarith
  have hmax1 : max (0:ℚ) (anchor - t) = anchor - t := max_eq_right (by linarith)
  have hmax2 : max (0:ℚ) (anchor - (t - 1000)) = anchor - (t - 1000) :=
    max_eq_right (by linarith)
  have harg2 : (anchor - (t - 1000)) / 1000 = (anchor - t) / 1000 + 1 := by ring
  have hwsum : (0:ℚ) < 0 + w + w / 2 := by linarith
  constructor
  · set v1 : PlayerMatchView := { playedAt := t, isWin := true }
    set v2 : PlayerMatchView := { playedAt := t - 1000, isWin := false }
    have hts : trimmedViews [v1, v2]
        { decayMs := some 1000, anchorMs := some anchor } = [v1, v2] := by
      simp [trimmedViews, JsUtil.sortByLe, JsUtil.insertByLe, effectiveLimit,
        DEFAULT_LIMIT, v1, v2, hle]
    have hcp : computePlayerFeatures halfPow [v1, v2] playerName
        { decayMs := some 1000, anchorMs := some anchor } nowMs =
          some (finalizeStats halfPow [v1, v2] playerName
            { decayMs := some 1000, anchorMs := some anchor } nowMs) := by
      unfold computePlayerFeatures
      rw [hts]
      rfl
    refine ⟨_, hcp, ?_⟩
    rw [finalizeStats_recencyWinRate]
    simp only [List.foldl_cons, List.foldl_nil, featureStep_recencyWeight,
      featureStep_recencyWinWeighted, Option.getD_some, v1, v2]
    simp only [initAccum]
    norm_num
    rw [hmax1, hmax2, harg2, h0, h1]
    refine ⟨by linarith, ?_⟩
    rw [div_eq_iff (by linarith)]
    ring
  · set v1 : PlayerMatchView := { playedAt := t, isWin := false }
    set v2 : PlayerMatchView := { playedAt := t - 1000, isWin := true }
    have hts : trimmedViews [v1, v2]
        { decayMs := some 1000, anchorMs := some anchor } = [v1, v2] := by
      simp [trimmedViews, JsUtil.sortByLe, JsUtil.insertByLe, effectiveLimit,
        DEFAULT_LIMIT, v1, v2, hle]
    have hcp : computePlayerFeatures halfPow [v1, v2] playerName
        { decayMs := some 1000, anchorMs := some anchor } nowMs =
          some (finalizeStats halfPow [v1, v2] playerName
            { decayMs := some 1000, anchorMs := some anchor } nowMs) := by
      unfold computePlayerFeatures
      rw [hts]
      rfl
    refine ⟨_, hcp, ?_⟩
    rw [finalizeStats_recencyWinRate]
    simp only [List.foldl_cons, List.foldl_nil, featureStep_recencyWeight,
      featureStep_recencyWinWeighted, Option.getD_some, v1, v2]
    simp only [initAccum]
    norm_num
    rw [hmax1, hmax2, harg2, h0, h1]
    refine ⟨by linarith, ?_⟩
    rw [div_eq_iff (by linarith)]
    ring

/-- A concrete stand-in for `x ↦ Math.pow(0.5, x)` at the two exponents the
C8 scenario evaluates (0 and 1). -/
def c8HalfPow : ℚ → ℚ := fun x => if x ≤ 0 then 1 else 1/2

theorem C8_recency_weighting_scenario_witness :
    ((0:ℚ) ≤ 0 ∧ c8HalfPow (((0:ℚ) - 0) / 1000) = 1 ∧
      c8HalfPow (((0:ℚ) - 0) / 1000 + 1) = 1 / 2 ∧ (0:ℚ) < 1) ∧
      ((∃ stats, PredictFeatures.computePlayerFeatures c8HalfPow
          [{ playedAt := 0, isWin := true }, { playedAt := (0:ℚ) - 1000, isWin := false }]
          "p" { decayMs := some 1000, anchorMs := some 0 } 0 = some stats ∧
          stats.recencyWinRate = some (2/3)) ∧
        (∃ stats, PredictFeatures.computePlayerFeatures c8HalfPow
          [{ playedAt := 0, isWin := false }, { playedAt := (0:ℚ) - 1000, isWin := true }]
          "p" { decayMs := some 1000, anchorMs := some 0 } 0 = some stats ∧
          stats.recencyWinRate = some (1/3))) :=
  ⟨⟨le_refl 0, by norm_num [c8HalfPow], by norm_num [c8HalfPow], by norm_num⟩,
    C8_recency_weighting_scenario c8HalfPow 0 0 1 "p" 0 (le_refl 0)
      (by norm_num [c8HalfPow]) (by norm_num [c8HalfPow]) (by norm_num)⟩

namespace PredictModel

/-- Embedding of `PredictModelCalibration` from `predictModel.ts`. -/
structure PredictModelCalibration where
  a : ℚ
  b : ℚ
deriving DecidableEq

/-- Embedding of the per-variant test metrics inside the `training`
metadata of `PredictModelArtifact`. -/
structure TrainingSideMetrics where
  testBrier : ℚ
  testLogLoss : ℚ
deriving DecidableEq

/-- Embedding of the `training` metadata of `PredictModelArtifact`. -/
structure TrainingMeta where
  sampleCount : ℕ
  trainCount : ℕ
  testCount : ℕ
  heuristic : TrainingSideMetrics
  trained : TrainingSideMetrics
deriving DecidableEq

/-- Embedding of `PredictModelArtifact` from `predictModel.ts`. The
`weights` record is modelled as an association list with `List.lookup`
playing the role of `model.weights?.[feature]`. -/
structure PredictModelArtifact where
  version : ℚ
  createdAt : String
  features : List String
  intercept : ℚ
  weights : List (String × ℚ)
  calibration : Option PredictModelCalibration := none
  training : Option TrainingMeta := none
deriving DecidableEq

/-- Embedding of `FeatureDeltaVector` from `predictModel.ts`. -/
structure FeatureDeltaVector where
  winrate_delta : ℚ
  recency_winrate_delta : ℚ
  avg_elo_delta : ℚ
  avg_opponent_elo_delta : ℚ
  current_streak_delta : ℚ
  best_streak_delta : ℚ
  sample_log_ratio : ℚ
deriving DecidableEq

/-- Embedding of `featureNames()` from `predictModel.ts`. -/
def featureNames : List String :=
  [ "winrate_delta"
  , "recency_winrate_delta"
  , "avg_elo_delta"
  , "avg_opponent_elo_delta"
  , "current_streak_delta"
  , "best_streak_delta"
  , "sample_log_ratio" ]

def clamp (value lo hi : ℚ) : ℚ := JsUtil.clamp value lo hi

/-- `safeWinRate` from `predictModel.ts` (the `?? 0.5` fallback is
unreachable: `winRate` is a required numeric field). -/
def safeWinRate (player : PredictFeatures.PlayerFeatureStats) : ℚ :=
  clamp player.winRate 0 1

/-- `safeRecencyWinRate` from `predictModel.ts`. -/
def safeRecencyWinRate (player : PredictFeatures.PlayerFeatureStats) : ℚ :=
  clamp (player.recencyWinRate.getD player.winRate) 0 1

/-- `safeAvgEloDelta` from `predictModel.ts`. -/
def safeAvgEloDelta (player : PredictFeatures.PlayerFeatureStats) : ℚ :=
  match player.avgEloDelta with
  | some v => v
  | none =>
      if 0 < player.sample then player.totalEloDelta / (player.sample : ℚ) else 0

/-- Embedding of `buildFeatureDeltaVector` from `predictModel.ts`;
`logF` models `Math.log`. -/
def buildFeatureDeltaVector (logF : ℚ → ℚ)
    (playerA playerB : PredictFeatures.PlayerFeatureStats) : FeatureDeltaVector :=
  let winA := safeWinRate playerA
  let winB := safeWinRate playerB
  let recA := safeRecencyWinRate playerA
  let recB := safeRecencyWinRate playerB
  let avgEloDeltaA := safeAvgEloDelta playerA
  let avgEloDeltaB := safeAvgEloDelta playerB
  let avgOpponentEloA := playerA.avgOpponentElo.getD 1500
  let avgOpponentEloB := playerB.avgOpponentElo.getD 1500
  let currentStreakA := playerA.streak.current
  let currentStreakB := playerB.streak.current
  let bestStreakA := playerA.streak.best
  let bestStreakB := playerB.streak.best
  let sampleA := max 1 playerA.sample
  let sampleB := max 1 playerB.sample
  { winrate_delta := winA - winB
    recency_winrate_delta := recA - recB
    avg_elo_delta := (avgEloDeltaA - avgEloDeltaB) / 20
    avg_opponent_elo_delta := (avgOpponentEloA - avgOpponentEloB) / 400
    current_streak_delta := ((currentStreakA : ℚ) - (currentStreakB : ℚ)) / 8
    best_streak_delta := ((bestStreakA : ℚ) - (bestStreakB : ℚ)) / 12
    sample_log_ratio := logF ((sampleA : ℚ) / (sampleB : ℚ)) }

/-- Embedding of `getFeatureValue` (with the `isFeatureName` guard) from
`predictModel.ts`. -/
def getFeatureValue (vector : FeatureDeltaVector) (feature : String) : Option ℚ :=
  match vector with
  | ⟨w, r, ad, ao, cs, bs, sl⟩ =>
      match feature with
      | "winrate_delta" => some w
      | "recency_winrate_delta" => some r
      | "avg_elo_delta" => some ad
      | "avg_opponent_elo_delta" => some ao
      | "current_streak_delta" => some cs
      | "best_streak_delta" => some bs
      | "sample_log_ratio" => some sl
      | _ => none

/-- Embedding of the numerically-stable `sigmoid` from `predictModel.ts`;
`expF` models `Math.exp`. -/
def sigmoid (expF : ℚ → ℚ) (value : ℚ) : ℚ :=
  if 0 ≤ value then 1 / (1 + expF (-value))
  else expF value / (1 + expF value)

/-- Embedding of `safeLogit` from `predictModel.ts`. -/
def safeLogit (logF : ℚ → ℚ) (probability : ℚ) : ℚ :=
  let p := clamp probability (1/1000000) (1 - 1/1000000)
  logF (p / (1 - p))

/-- Embedding of `scoreModelProbabilityA` from `predictModel.ts`
(lines 84-106). In the `ℚ` model every weight and feature value is finite,
so the `Number.isFinite` guards reduce to the `Option` checks. -/
def scoreModelProbabilityA (expF logF : ℚ → ℚ) (model : PredictModelArtifact)
    (playerA playerB : PredictFeatures.PlayerFeatureStats) : ℚ :=
  let features := buildFeatureDeltaVector logF playerA playerB
  let score := model.features.foldl
    (fun s feature =>
      match model.weights.lookup feature, getFeatureValue features feature with
      | some weight, some value => s + weight * value
      | _, _ => s)
    model.intercept
  let probability := sigmoid expF score
  let calibrated :=
    match model.calibration with
    | some c => sigmoid expF (c.a * safeLogit logF probability + c.b)
    | none => probability
  clamp calibrated (1/1000000) (1 - 1/1000000)

theorem scoreModelProbabilityA_bounds (expF logF : ℚ → ℚ)
    (model : PredictModelArtifact)
    (playerA playerB : PredictFeatures.PlayerFeatureStats) :
    1/1000000 ≤ scoreModelProbabilityA expF logF model playerA playerB ∧
      scoreModelProbabilityA expF logF model playerA playerB ≤ 1 - 1/1000000 := by
  unfold scoreModelProbabilityA
  exact ⟨JsUtil.le_clamp _ _ _ (by norm_num), JsUtil.clamp_le _ _ _⟩

end PredictModel

namespace PredictScore

open PredictFeatures

/-- Embedding of `PredictionInput` from the prediction-engine module
(`predictScore.ts`): the two stats may be missing (`null`/`undefined`). -/
structure PredictionInput where
  playerA : Option PlayerFeatureStats
  playerB : Option PlayerFeatureStats
  targetSample : Option ℚ := none
  anchorMs : Option ℚ := none

/-- The `'A' | 'B'` union type of the `winner` field. -/
inductive Winner where
  | A : Winner
  | B : Winner
deriving DecidableEq

/-- Embedding of `PredictionOutcome` from `predictScore.ts`. -/
structure PredictionOutcome where
  winner : Winner
  probability : ℚ
  confidence : ℚ
  factors : List String
  probabilityA : ℚ
  probabilityB : ℚ
deriving DecidableEq

def DEFAULT_TARGET_SAMPLE : ℚ := 10

def clamp (value lo hi : ℚ) : ℚ := JsUtil.clamp value lo hi

/-- Embedding of `computeRecencyFactor` from `predictScore.ts`. -/
def computeRecencyFactor (ageMs : ℚ) : ℚ :=
  let sevenDaysMs : ℚ := 7 * 24 * 60 * 60 * 1000
  let scaled := 1 - ageMs / (sevenDaysMs * 2)
  clamp scaled (35/100) 1

/-- Embedding of `computeConfidence` from `predictScore.ts` (lines 94-114). -/
def computeConfidence (a b : PlayerFeatureStats) (targetSample anchorMs : ℚ) : ℚ :=
  let minSample : ℚ := ((min a.sample b.sample : ℕ) : ℚ)
  let sampleFactor := clamp (minSample / targetSample) 0 1
  let oldest := min (a.oldestMatchAt.getD anchorMs) (b.oldestMatchAt.getD anchorMs)
  let ageMs := max 0 (anchorMs - oldest)
  let recencyFactor := computeRecencyFactor ageMs
  let winRateGap :=
    |(a.recencyWinRate.getD a.winRate) - (b.recencyWinRate.getD b.winRate)|
  let varianceFactor := 6/10 + 4/10 * clamp (winRateGap * 2) 0 1
  let blended := sampleFactor * recencyFactor * varianceFactor
  clamp (35/100 + blended * (65/100)) (1/10) (95/100)

/-- `value.toFixed(1)` of ECMAScript for a finite `ℚ` value: sign, then the
magnitude rounded to one decimal digit with ties away from zero. -/
def jsToFixed1 (q : ℚ) : String :=
  let sign := if q < 0 then "-" else ""
  let n := (⌊|q| * 10 + 1/2⌋ : ℤ).toNat
  sign ++ toString (n / 10) ++ "." ++ toString (n % 10)

/-- `Math.round`, as used for displayed rating values. -/
def jsRoundInt (x : ℚ) : ℤ := ⌊x + 1/2⌋

/-- Embedding of `formatPercent` from `predictScore.ts`. -/
def formatPercent (value : ℚ) : String :=
  jsToFixed1 (clamp value 0 1 * 100) ++ "%"

/-- Embedding of `deriveFactors` from `predictScore.ts` (lines 127-166). -/
def deriveFactors (a b : PlayerFeatureStats) : List String :=
  let winA := a.recencyWinRate.getD a.winRate
  let winB := b.recencyWinRate.getD b.winRate
  let f1 :=
    if 5/100 ≤ |winA - winB| then
      ["Recency winrate " ++ formatPercent winA ++ " vs " ++ formatPercent winB]
    else []
  let f2 :=
    match a.avgOpponentElo, b.avgOpponentElo with
    | some ea, some eb =>
        if 30 ≤ |ea - eb| then
          [if 0 < ea - eb then
            "Faced tougher opponents (" ++ toString (jsRoundInt ea) ++ " vs " ++
              toString (jsRoundInt eb) ++ ")"
          else
            "Faced tougher opponents (" ++ toString (jsRoundInt eb) ++ " vs " ++
              toString (jsRoundInt ea) ++ ")"]
        else []
    | _, _ => []
  let eloA :=
    match a.avgEloDelta with
    | some v => some v
    | none =>
        if a.sample ≠ 0 then some (a.totalEloDelta / (a.sample : ℚ)) else none
  let eloB :=
    match b.avgEloDelta with
    | some v => some v
    | none =>
        if b.sample ≠ 0 then some (b.totalEloDelta / (b.sample : ℚ)) else none
  let f3 :=
    match eloA, eloB with
    | some va, some vb =>
        if 5 ≤ |va - vb| then
          [if vb < va then
            "Momentum: +" ++ jsToFixed1 va ++ " ΔElo vs " ++ jsToFixed1 vb
          else
            "Momentum: +" ++ jsToFixed1 vb ++ " ΔElo vs " ++ jsToFixed1 va]
        else []
    | _, _ => []
  let f4 :=
    if b.streak.current + 1 < a.streak.current then
      ["Streak: " ++ toString a.streak.current ++ "W"]
    else if a.streak.current + 1 < b.streak.current then
      ["Streak: " ++ toString b.streak.current ++ "W"]
    else []
  (f1 ++ f2 ++ f3 ++ f4).take 4

/-- Embedding of `computeFormScore` from `predictScore.ts` (lines 70-92). -/
def computeFormScore (player : PlayerFeatureStats) : ℚ :=
  let winRate := clamp (player.recencyWinRate.getD player.winRate) 0 1
  let winComponent := (winRate - 1/2) * (11/10)
  let avgOpponentElo := player.avgOpponentElo.getD 1500
  let oppComponent := clamp ((avgOpponentElo - 1500) / 400) (-1) 1 * (1/2)
  let avgEloDelta :=
    match player.avgEloDelta with
    | some v => v
    | none =>
        if 0 < player.sample then player.totalEloDelta / (player.sample : ℚ) else 0
  let eloComponent := clamp (avgEloDelta / 15) (-1) 1 * (1/2)
  let streakComponent := clamp ((player.streak.current : ℚ) / 6) 0 1 * (3/10)
  winComponent + oppComponent + eloComponent + streakComponent

/-- Embedding of `probFromDelta` from `predictScore.ts`; `expF` models
`Math.exp`. -/
def probFromDelta (expF : ℚ → ℚ) (delta : ℚ) : ℚ :=
  1 / (1 + expF (-(12/10) * delta))

/-- Embedding of `predictOutcomeWithProbability` from `predictScore.ts`
(lines 43-68). `nowMs` models the impure default anchor `Date.now()`. -/
def predictOutcomeWithProbability (input : PredictionInput)
    (probabilityForA : PlayerFeatureStats → PlayerFeatureStats → ℚ)
    (nowMs : ℚ) : Option PredictionOutcome :=
  let targetSample := max 1 (input.targetSample.getD DEFAULT_TARGET_SAMPLE)
  let anchor := input.anchorMs.getD nowMs
  match input.playerA, input.playerB with
  | some playerA, some playerB =>
      let probabilityA := clamp (probabilityForA playerA playerB) (5/100) (95/100)
      let probabilityB := 1 - probabilityA
      let winner := if 1/2 ≤ probabilityA then Winner.A else Winner.B
      let probability := if winner = Winner.A then probabilityA else probabilityB
      some
        { winner := winner
          probability := probability
          confidence := computeConfidence playerA playerB targetSample anchor
          factors := deriveFactors playerA playerB
          probabilityA := probabilityA
          probabilityB := probabilityB }
  | _, _ => none

/-- Embedding of `predictOutcomeHeuristic` from `predictScore.ts`. -/
def predictOutcomeHeuristic (expF : ℚ → ℚ) (input : PredictionInput)
    (nowMs : ℚ) : Option PredictionOutcome :=
  predictOutcomeWithProbability input
    (fun playerA playerB =>
      clamp (probFromDelta expF (computeFormScore playerA - computeFormScore playerB))
        (5/100) (95/100))
    nowMs

/-- Embedding of `predictOutcome` from `predictScore.ts`: the model argument
stands for the result of `getPredictModel()` (the cached artifact, or `null`
when absent/invalid, in which case the heuristic path is used). -/
def predictOutcome (expF logF : ℚ → ℚ)
    (model : Option PredictModel.PredictModelArtifact)
    (input : PredictionInput) (nowMs : ℚ) : Option PredictionOutcome :=
  match model with
  | some m =>
      predictOutcomeWithProbability input
        (fun playerA playerB =>
          PredictModel.scoreModelProbabilityA expF logF m playerA playerB)
        nowMs
  | none => predictOutcomeHeuristic expF input nowMs

end PredictScore

namespace PredictScore

theorem clamp01_nonneg (x : ℚ) : 0 ≤ clamp x 0 1 :=
  JsUtil.le_clamp x 0 1 (by norm_num)

theorem clamp_nonpos_eq_zero {z : ℚ} (hz : z ≤ 0) : clamp z 0 1 = 0 := by
  unfold clamp JsUtil.clamp
  rw [max_eq_left hz, min_eq_right (by norm_num)]

theorem clamp01_div_mono (t : ℚ) {x y : ℚ} (hx : 0 ≤ x) (h : x ≤ y) :
    clamp (x / t) 0 1 ≤ clamp (y / t) 0 1 := by
  rcases lt_trichotomy t 0 with ht | ht | ht
  · have h1 : x / t ≤ 0 := div_nonpos_iff.mpr (Or.inl ⟨hx, le_of_lt ht⟩)
    have h2 : y / t ≤ 0 := div_nonpos_iff.mpr (Or.inl ⟨le_trans hx h, le_of_lt ht⟩)
    rw [clamp_nonpos_eq_zero h1, clamp_nonpos_eq_zero h2]
  · subst ht
    simp
  · exact JsUtil.clamp_mono 0 1 ((div_le_div_right ht).mpr h)

theorem computeRecencyFactor_nonneg (ageMs : ℚ) : 0 ≤ computeRecencyFactor ageMs :=
  le_trans (by norm_num) (JsUtil.le_clamp _ (35/100) 1 (by norm_num))

theorem computeRecencyFactor_antitone {a1 a2 : ℚ} (h : a2 ≤ a1) :
    computeRecencyFactor a1 ≤ computeRecencyFactor a2 := by
  unfold computeRecencyFactor
  apply JsUtil.clamp_mono
  have hpos : (0:ℚ) < 7 * 24 * 60 * 60 * 1000 * 2 := by norm_num
  have := (div_le_div_right hpos).mpr h
  linarith

end PredictScore

open PredictScore in
/-- C3: for every pair of valid `PlayerFeatureStats`, the prediction outcome
satisfies `probabilityA + probabilityB = 1` (exactly, in the `ℚ` model),
the winner is `A` exactly when `probabilityA ≥ 0.5` and `B` otherwise, and
`probability = max(probabilityA, probabilityB)`; the prediction returns
`none` exactly when either input's stats are missing. This holds for every
probability scorer `probFn` plugged into the wrapper. -/
theorem C3_prediction_outcome_coherence
    (probFn : PredictFeatures.PlayerFeatureStats →
      PredictFeatures.PlayerFeatureStats → ℚ)
    (input : PredictionInput) (nowMs : ℚ) :
    (predictOutcomeWithProbability input probFn nowMs = none ↔
      input.playerA = none ∨ input.playerB = none) ∧
    ∀ o, predictOutcomeWithProbability input probFn nowMs = some o →
      o.probabilityA + o.probabilityB = 1 ∧
      (o.winner = Winner.A ↔ 1/2 ≤ o.probabilityA) ∧
      (o.winner = Winner.B ↔ o.probabilityA < 1/2) ∧
      o.probability = max o.probabilityA o.probabilityB := by
  rcases hA : input.playerA with _ | pa
  · constructor
    · simp [predictOutcomeWithProbability, hA]
    · intro o ho
      rw [predictOutcomeWithProbability, hA] at ho
      simp at ho
  · rcases hB : input.playerB with _ | pb
    · constructor
      · simp [predictOutcomeWithProbability, hA, hB]
      · intro o ho
        rw [predictOutcomeWithProbability, hA, hB] at ho
        simp at ho
    · constructor
      · simp [predictOutcomeWithProbability, hA, hB]
      · intro o ho
        rw [predictOutcomeWithProbability, hA, hB] at ho
        simp only [Option.some.injEq] at ho
        subst ho
        set p := clamp (probFn pa pb) (5/100) (95/100) with hp
        by_cases h : 1/2 ≤ p
        · refine ⟨by ring, ?_, ?_, ?_⟩
          · simp [h]
          · simp [h]
          · simp only [if_pos h, reduceIte]
            exact (max_eq_left (by linarith)).symm
        · have hlt : p < 1/2 := lt_of_not_le h
          refine ⟨by ring, ?_, ?_, ?_⟩
          · simp [h]
          · simp [h, hlt]
          · simp only [if_neg h]
            have hBA : (Winner.B = Winner.A) = False := by simp
            simp only [hBA, if_false]
            exact (max_eq_right (by linarith)).symm

def c3Stats : PredictFeatures.PlayerFeatureStats :=
  { player := "x"
    sample := 1
    wins := 1
    losses := 0
    winRate := 1
    totalEloDelta := 0
    streak := { current := 0, best := 0 } }

def c3Input : PredictScore.PredictionInput :=
  { playerA := some c3Stats, playerB := some c3Stats }

def c3Outcome : PredictScore.PredictionOutcome :=
  { winner := PredictScore.Winner.A
    probability := 7/10
    confidence := 389/1000
    factors := []
    probabilityA := 7/10
    probabilityB := 3/10 }

open PredictScore in
theorem C3_prediction_outcome_coherence_witness :
    (predictOutcomeWithProbability c3Input (fun _ _ => 7/10) 0 = none ↔
      c3Input.playerA = none ∨ c3Input.playerB = none) ∧
    (c3Outcome.probabilityA + c3Outcome.probabilityB = 1 ∧
      (c3Outcome.winner = Winner.A ↔ 1/2 ≤ c3Outcome.probabilityA) ∧
      (c3Outcome.winner = Winner.B ↔ c3Outcome.probabilityA < 1/2) ∧
      c3Outcome.probability = max c3Outcome.probabilityA c3Outcome.probabilityB) :=
  ⟨(C3_prediction_outcome_coherence (fun _ _ => 7/10) c3Input 0).1,
    (C3_prediction_outcome_coherence (fun _ _ => 7/10) c3Input 0).2 c3Outcome (by
      norm_num [predictOutcomeWithProbability, c3Input, c3Stats, c3Outcome,
        computeConfidence, computeRecencyFactor, deriveFactors, clamp,
        JsUtil.clamp, DEFAULT_TARGET_SAMPLE, min_def, max_def])⟩

open PredictScore in
/-- C4 (amended): for every pair of `PlayerFeatureStats` the computed
confidence lies in `[0.1, 0.95]`; and, all other inputs held fixed,
confidence is monotone (non-strictly) in `min(sampleA, sampleB)` and
monotone non-increasing in the age of the older window's oldest match.
The decrease is not strict in general: it stalls whenever a clamp
saturates (e.g. both samples at or above `targetSample`, or age beyond
the `0.35` recency floor), see the counterexample. -/
theorem C4_confidence_bounds_and_monotonicity
    (a b : PredictFeatures.PlayerFeatureStats) (targetSample anchorMs : ℚ)
    (n1 n2 : ℕ) (t1 t2 : ℚ) (hn : n1 ≤ n2) (ht : t1 ≤ t2) :
    (1/10 ≤ computeConfidence a b targetSample anchorMs ∧
      computeConfidence a b targetSample anchorMs ≤ 95/100) ∧
    computeConfidence { a with sample := n1 } b targetSample anchorMs ≤
      computeConfidence { a with sample := n2 } b targetSample anchorMs ∧
    computeConfidence { a with oldestMatchAt := some t1 } b targetSample anchorMs ≤
      computeConfidence { a with oldestMatchAt := some t2 } b targetSample anchorMs := by
  have hvf_nonneg : ∀ gap : ℚ, (0:ℚ) ≤ 6/10 + 4/10 * clamp (gap * 2) 0 1 := by
    intro gap
    have := clamp01_nonneg (gap * 2)
    linarith
  refine ⟨?_, ?_, ?_⟩
  · unfold computeConfidence
    exact ⟨JsUtil.le_clamp _ _ _ (by norm_num), JsUtil.clamp_le _ _ _⟩
  · unfold computeConfidence
    dsimp only
    apply JsUtil.clamp_mono
    apply add_le_add_left
    apply mul_le_mul_of_nonneg_right _ (by norm_num : (0:ℚ) ≤ 65/100)
    apply mul_le_mul_of_nonneg_right _ (hvf_nonneg _)
    apply mul_le_mul_of_nonneg_right _ (computeRecencyFactor_nonneg _)
    apply clamp01_div_mono
    · positivity
    · exact_mod_cast Nat.cast_le.mpr (min_le_min hn (le_refl b.sample))
  · unfold computeConfidence
    dsimp only
    apply JsUtil.clamp_mono
    apply add_le_add_left
    apply mul_le_mul_of_nonneg_right _ (by norm_num : (0:ℚ) ≤ 65/100)
    apply mul_le_mul_of_nonneg_right _ (hvf_nonneg _)
    apply mul_le_mul_of_nonneg_left _ (clamp01_nonneg _)
    apply computeRecencyFactor_antitone
    simp only [Option.getD_some]
    have hmin : min t1 (b.oldestMatchAt.getD anchorMs) ≤
        min t2 (b.oldestMatchAt.getD anchorMs) :=
      min_le_min ht (le_refl _)
    exact max_le_max (le_refl 0) (by linarith)

def c4Base : PredictFeatures.PlayerFeatureStats :=
  { player := "x"
    sample := 20
    wins := 10
    losses := 10
    winRate := 1/2
    totalEloDelta := 0
    streak := { current := 0, best := 0 }
    oldestMatchAt := some 0 }

open PredictScore in
theorem C4_confidence_bounds_and_monotonicity_witness :
    ((1:ℕ) ≤ 2 ∧ (0:ℚ) ≤ 1) ∧
      ((1/10 ≤ computeConfidence c4Base c4Base 10 0 ∧
        computeConfidence c4Base c4Base 10 0 ≤ 95/100) ∧
      computeConfidence { c4Base with sample := 1 } c4Base 10 0 ≤
        computeConfidence { c4Base with sample := 2 } c4Base 10 0 ∧
      computeConfidence { c4Base with oldestMatchAt := some 0 } c4Base 10 0 ≤
        computeConfidence { c4Base with oldestMatchAt := some 1 } c4Base 10 0) :=
  ⟨⟨by decide, by norm_num⟩,
    C4_confidence_bounds_and_monotonicity c4Base c4Base 10 0 1 2 0 1
      (by decide) (by norm_num)⟩

open PredictScore in
/-- C4 counterexample: the claimed strict decrease fails on the code. With
`targetSample = 10`, lowering the smaller sample from 20 to 15 leaves the
confidence unchanged (the sample factor is clamped at 1), and growing the
older window's age from 10 to 12 days — both past 7 days — also leaves it
unchanged (the recency factor is clamped at its 0.35 floor). -/
theorem C4_confidence_strict_decrease_counterexample :
    (computeConfidence { c4Base with sample := 15 } c4Base 10 0 =
        computeConfidence { c4Base with sample := 20 } c4Base 10 0 ∧
      min 15 c4Base.sample < min 20 c4Base.sample) ∧
    (computeConfidence { c4Base with oldestMatchAt := some (-864000000) } c4Base 10 0 =
        computeConfidence { c4Base with oldestMatchAt := some (-1036800000) } c4Base 10 0 ∧
      (7 * 24 * 60 * 60 * 1000 : ℚ) < 864000000 ∧
      (864000000 : ℚ) < 1036800000) := by
  refine ⟨⟨?_, by decide⟩, ⟨?_, by norm_num, by norm_num⟩⟩
  · norm_num [computeConfidence, computeRecencyFactor, clamp, JsUtil.clamp,
      c4Base, min_def, max_def]
  · norm_num [computeConfidence, computeRecencyFactor, clamp, JsUtil.clamp,
      c4Base, min_def, max_def]

namespace PredictScore

theorem predictOutcomeWithProbability_probabilityA_mem
    {input : PredictionInput}
    {f : PredictFeatures.PlayerFeatureStats →
      PredictFeatures.PlayerFeatureStats → ℚ}
    {nowMs : ℚ} {o : PredictionOutcome}
    (h : predictOutcomeWithProbability input f nowMs = some o) :
    5/100 ≤ o.probabilityA ∧ o.probabilityA ≤ 95/100 := by
  rcases hA : input.playerA with _ | pa
  · rw [predictOutcomeWithProbability, hA] at h
    simp at h
  · rcases hB : input.playerB with _ | pb
    · rw [predictOutcomeWithProbability, hA, hB] at h
      simp at h
    · rw [predictOutcomeWithProbability, hA, hB] at h
      simp only [Option.some.injEq] at h
      subst h
      exact ⟨JsUtil.le_clamp _ _ _ (by norm_num), JsUtil.clamp_le _ _ _⟩

end PredictScore

open PredictScore PredictModel in
/-- C9 (implicit): for every pair of valid `PlayerFeatureStats`, the
`probabilityA` returned by the live prediction call lies in `[0.05, 0.95]`
on both paths — the wrapper re-clamps the scorer's output even when a
trained model is used, whose own output is only clamped to
`[1e-6, 1 - 1e-6]` — so the public predict surface never reports a
probability more extreme than 0.95. -/
theorem C9_public_probability_clamped
    (expF logF : ℚ → ℚ) (model : Option PredictModelArtifact)
    (input : PredictionInput) (nowMs : ℚ) (o : PredictionOutcome)
    (hres : predictOutcome expF logF model input nowMs = some o) :
    (5/100 ≤ o.probabilityA ∧ o.probabilityA ≤ 95/100) ∧
    ∀ (m : PredictModelArtifact) (pa pb : PredictFeatures.PlayerFeatureStats),
      1/1000000 ≤ scoreModelProbabilityA expF logF m pa pb ∧
        scoreModelProbabilityA expF logF m pa pb ≤ 1 - 1/1000000 := by
  constructor
  · rcases model with _ | m
    · exact predictOutcomeWithProbability_probabilityA_mem hres
    · exact predictOutcomeWithProbability_probabilityA_mem hres
  · intro m pa pb
    exact scoreModelProbabilityA_bounds expF logF m pa pb

def c9Stats : PredictFeatures.PlayerFeatureStats :=
  { player := "y"
    sample := 1
    wins := 1
    losses := 0
    winRate := 1
    totalEloDelta := 0
    streak := { current := 0, best := 0 } }

def c9Input : PredictScore.PredictionInput :=
  { playerA := some c9Stats, playerB := some c9Stats }

def c9Model : PredictModel.PredictModelArtifact :=
  { version := 1
    createdAt := ""
    features := ["winrate_delta"]
    intercept := 0
    weights := [("winrate_delta", 1)] }

def c9Outcome : PredictScore.PredictionOutcome :=
  { winner := PredictScore.Winner.A
    probability := 1/2
    confidence := 389/1000
    factors := []
    probabilityA := 1/2
    probabilityB := 1/2 }

open PredictScore PredictModel in
theorem C9_public_probability_clamped_witness :
    predictOutcome (fun _ => 1) (fun _ => 0) (some c9Model) c9Input 0 =
        some c9Outcome ∧
      ((5/100 ≤ c9Outcome.probabilityA ∧ c9Outcome.probabilityA ≤ 95/100) ∧
      ∀ (m : PredictModelArtifact) (pa pb : PredictFeatures.PlayerFeatureStats),
        1/1000000 ≤ scoreModelProbabilityA (fun _ => 1) (fun _ => 0) m pa pb ∧
          scoreModelProbabilityA (fun _ => 1) (fun _ => 0) m pa pb ≤ 1 - 1/1000000) :=
  ⟨by norm_num [predictOutcome, predictOutcomeWithProbability, c9Input, c9Stats,
      c9Model, c9Outcome, scoreModelProbabilityA, buildFeatureDeltaVector,
      getFeatureValue, sigmoid, safeWinRate, safeRecencyWinRate, safeAvgEloDelta,
      PredictModel.clamp, PredictScore.clamp, JsUtil.clamp, List.lookup,
      computeConfidence, computeRecencyFactor, deriveFactors,
      DEFAULT_TARGET_SAMPLE, min_def, max_def],
    C9_public_probability_clamped (fun _ => 1) (fun _ => 0) (some c9Model)
      c9Input 0 c9Outcome
      (by norm_num [predictOutcome, predictOutcomeWithProbability, c9Input, c9Stats,
        c9Model, c9Outcome, scoreModelProbabilityA, buildFeatureDeltaVector,
        getFeatureValue, sigmoid, safeWinRate, safeRecencyWinRate, safeAvgEloDelta,
        PredictModel.clamp, PredictScore.clamp, JsUtil.clamp, List.lookup,
        computeConfidence, computeRecencyFactor, deriveFactors,
        DEFAULT_TARGET_SAMPLE, min_def, max_def])⟩

namespace PredictModelStore

/-- The `calibration` field of a parsed artifact before validation: the
outer `Option` is `none` when the value is absent or not an object; the
inner fields are `none` when the corresponding number is missing or
non-finite. -/
structure RawCalibration where
  a : Option ℚ := none
  b : Option ℚ := none

/-- A parsed (`JSON.parse`d) model artifact before validation, as consumed
by `validateModel` in `predictModelStore.ts`:
`intercept`/`version` are `some` exactly when `Number.isFinite` holds,
`features` is `none` when not an array (elements `none` when not strings),
`weights` is `none` when absent or not an object (the function models the
`weights[feature]` lookup, `some` exactly when the entry is a finite
number). -/
structure RawModelInput where
  intercept : Option ℚ := none
  features : Option (List (Option String)) := none
  weights : Option (String → Option ℚ) := none
  calibration : Option RawCalibration := none
  version : Option ℚ := none
  createdAt : Option String := none
  training : Option PredictModel.TrainingMeta := none

/-- Embedding of `validateCalibration` from `predictModelStore.ts`
(lines 81-89). -/
def validateCalibration (value : Option RawCalibration) :
    Option PredictModel.PredictModelCalibration :=
  match value with
  | none => none
  | some c =>
      match c.a, c.b with
      | some a, some b => some { a := a, b := b }
      | _, _ => none

/-- A computable model of `String.prototype.trim`: drop leading and
trailing whitespace. -/
def jsTrim (s : String) : String :=
  ⟨((s.data.dropWhile Char.isWhitespace).reverse.dropWhile
      Char.isWhitespace).reverse⟩

/-- The feature-list filtering of `validateModel` (lines 54-57): trim
string entries, replace non-strings by the empty string, drop empties,
keep only canonical feature names. -/
def filteredFeatures (rawFeatures : List (Option String)) : List String :=
  ((rawFeatures.map (fun v =>
      match v with
      | some s => jsTrim s
      | none => "")).filter (fun s => s.length ≠ 0)).filter
    (fun s => PredictModel.featureNames.contains s)

/-- Embedding of `validateModel` from `predictModelStore.ts` (lines 46-79).
`nowIso` models the impure default `new Date().toISOString()` used when
`createdAt` is not a string. The caller (`loadModelFromDisk`) maps a
non-object payload to `none` before reaching this function. -/
def validateModel (nowIso : String) (input : RawModelInput) :
    Option PredictModel.PredictModelArtifact :=
  match input.intercept with
  | none => none
  | some intercept =>
      match input.features with
      | none => none
      | some rawFeatures =>
          if rawFeatures.length = 0 then none
          else
            match input.weights with
            | none => none
            | some weights =>
                let features := filteredFeatures rawFeatures
                if features.length = 0 then none
                else if features.any (fun f => (weights f).isNone) then none
                else
                  some
                    { version := input.version.getD 1
                      createdAt := input.createdAt.getD nowIso
                      features := features
                      intercept := intercept
                      -- every retained feature passed the finiteness check,
                      -- so the 0 default of `getD` is never used
                      weights := features.map (fun f => (f, (weights f).getD 0))
                      calibration := validateCalibration input.calibration
                      training := input.training }

end PredictModelStore

open PredictModelStore in
/-- C1 (amended): `validateModel` accepts an artifact exactly when the
intercept is finite, the feature list is an array whose
trim-and-filter to canonical names is non-empty, the weights record is
present, and every surviving canonical feature has a finite weight.
Contrary to the original claim, unknown feature names do not cause
rejection — they are silently filtered out (the accepted artifact's
feature list is the filtered list) — and a present-but-non-finite
calibration does not cause rejection — it is dropped to `null` via
`validateCalibration`. -/
theorem C1_model_validation_amended (nowIso : String) (input : RawModelInput) :
    ((validateModel nowIso input).isSome ↔
      ∃ intercept rawFeatures weights,
        input.intercept = some intercept ∧
        input.features = some rawFeatures ∧
        input.weights = some weights ∧
        filteredFeatures rawFeatures ≠ [] ∧
        ∀ f ∈ filteredFeatures rawFeatures, (weights f).isSome) ∧
    ∀ artifact rawFeatures, input.features = some rawFeatures →
      validateModel nowIso input = some artifact →
      artifact.features = filteredFeatures rawFeatures ∧
      artifact.calibration = validateCalibration input.calibration := by
  obtain ⟨iI, iF, iW, iC, iV, iCA, iT⟩ := input
  rcases iI with _ | intercept
  · constructor
    · simp [validateModel]
    · intro artifact rf hF hsome
      simp [validateModel] at hsome
  · rcases iF with _ | rawFeatures
    · constructor
      · simp [validateModel]
      · intro artifact rf hF hsome
        simp at hF
    · rcases iW with _ | weights
      · constructor
        · simp only [validateModel]
          by_cases h0 : rawFeatures.length = 0 <;> simp [h0]
        · intro artifact rf hF hsome
          simp only [validateModel] at hsome
          by_cases h0 : rawFeatures.length = 0 <;> simp [h0] at hsome
      · simp only [validateModel]
        by_cases h0 : rawFeatures.length = 0
        · have hempty : rawFeatures = [] := List.length_eq_zero.mp h0
          subst hempty
          constructor
          · simp [filteredFeatures, PredictModel.featureNames]
          · intro artifact rf hF hsome
            simp at hsome
        · rw [if_neg h0]
          by_cases h1 : (filteredFeatures rawFeatures).length = 0
          · have hempty : filteredFeatures rawFeatures = [] :=
              List.length_eq_zero.mp h1
            constructor
            · simp only [if_pos h1, Option.isSome_none, Bool.false_eq_true,
                false_iff]
              rintro ⟨i, rf, w, hi, hrf, hw, hne, hall⟩
              simp only [Option.some.injEq] at hrf
              subst hrf
              exact hne hempty
            · intro artifact rf hF hsome
              rw [if_pos h1] at hsome
              simp at hsome
          · rw [if_neg h1]
            by_cases h2 : (filteredFeatures rawFeatures).any
                (fun f => (weights f).isNone)
            · constructor
              · simp only [if_pos h2, Option.isSome_none, Bool.false_eq_true,
                  false_iff]
                rintro ⟨i, rf, w, hi, hrf, hw, hne, hall⟩
                simp only [Option.some.injEq] at hrf hw
                subst hrf; subst hw
                rcases List.any_eq_true.mp h2 with ⟨f, hf, hnone⟩
                have hsomef := hall f hf
                simp only [Option.isNone_iff_eq_none] at hnone
                rw [hnone] at hsomef
                simp at hsomef
              · intro artifact rf hF hsome
                rw [if_pos h2] at hsome
                simp at hsome
            · constructor
              · simp only [if_neg h2, Option.isSome_some, true_iff]
                refine ⟨intercept, rawFeatures, weights, rfl, rfl, rfl, ?_, ?_⟩
                · intro hempty
                  rw [hempty] at h1
                  simp at h1
                · intro f hf
                  by_contra hns
                  apply h2
                  refine List.any_eq_true.mpr ⟨f, hf, ?_⟩
                  simp [Option.isNone_iff_eq_none,
                    Option.not_isSome_iff_eq_none.mp hns]
              · intro artifact rf hF hsome
                rw [if_neg h2] at hsome
                simp only [Option.some.injEq] at hF hsome
                subst hF
                rw [← hsome]
                exact ⟨rfl, rfl⟩

def c1Input : PredictModelStore.RawModelInput :=
  { intercept := some 0
    features := some [some "winrate_delta", some "bogus_feature"]
    weights := some (fun s => if s = "winrate_delta" then some 1 else none)
    calibration := some { a := none, b := some 2 } }

def c1Artifact : PredictModel.PredictModelArtifact :=
  { version := 1
    createdAt := "2024-01-01T00:00:00.000Z"
    features := ["winrate_delta"]
    intercept := 0
    weights := [("winrate_delta", 1)]
    calibration := none
    training := none }

open PredictModelStore in
/-- C1 counterexample: an artifact whose feature list contains a name
outside the canonical set, and whose calibration object has a non-finite
`a`, is NOT rejected: `validateModel` accepts it, silently filtering the
unknown feature and dropping the calibration to `null` — a partially
filtered artifact, contradicting the claim's "rejects the entire artifact
in every such case". -/
theorem C1_model_validation_counterexample :
    c1Input.features = some [some "winrate_delta", some "bogus_feature"] ∧
    "bogus_feature" ∉ PredictModel.featureNames ∧
    c1Input.calibration = some { a := none, b := some 2 } ∧
    validateModel "2024-01-01T00:00:00.000Z" c1Input = some c1Artifact := by
  refine ⟨rfl, by decide, rfl, ?_⟩
  decide

open PredictModelStore in
theorem C1_model_validation_amended_witness :
    c1Artifact.features =
        filteredFeatures [some "winrate_delta", some "bogus_feature"] ∧
      c1Artifact.calibration = validateCalibration c1Input.calibration :=
  (C1_model_validation_amended "2024-01-01T00:00:00.000Z" c1Input).2
    c1Artifact [some "winrate_delta", some "bogus_feature"] (by rfl) (by decide)

namespace Api

/-- A computable model of `String.toLowerCase`. -/
def jsToLower (s : String) : String := ⟨s.data.map Char.toLower⟩

/-- Embedding of `normalizeName` from `api.ts`:
`String(name || '').trim().toLowerCase()` applied to an already-string
input. -/
def normalizeName (name : String) : String :=
  jsToLower (PredictModelStore.jsTrim name)

/-- Lexicographic comparison of character lists by code point, modelling
JavaScript string comparison. -/
def charListLt : List Char → List Char → Bool
  | _, [] => false
  | [], _ :: _ => true
  | c1 :: r1, c2 :: r2 =>
      if c1 < c2 then true else if c2 < c1 then false else charListLt r1 r2

/-- `a ≤ b` on strings, modelling the default JavaScript sort order. -/
def jsStringLe (a b : String) : Bool := ! charListLt b.data a.data

end Api

namespace PredictBacktest

/-- The `{uuid?, name}` participant projection built inside
`normalizeEvent` (`predictBacktest.ts` lines 484-489). -/
structure PlayerRef where
  uuid : Option String := none
  name : String
deriving DecidableEq

/-- A raw participant before name normalisation: `rawName` is the result
of the `nickname || name || username || id || uuid` chain (empty when all
are falsy); that pick-first-defined parsing is outside the embedded core. -/
structure RawPlayer where
  uuid : Option String := none
  rawName : String := ""
deriving DecidableEq

/-- A raw match record as consumed by the backtest reconstruction:
`sourceId` is `id ?? match_id ?? matchId ?? uuid`, `playedAt` is the
already-normalised timestamp (`normalizeTimestampMs(date ?? timestamp ??
played_at)`, `none` when unparseable), `players` is the participant array
(`[]` when not an array), `resultUuid` is the truthy `result?.uuid`, and
`changes` holds the per-uuid rating deltas (`none` marking a non-finite
entry). -/
structure RawMatch where
  sourceId : Option String := none
  playedAt : Option ℚ := none
  players : List RawPlayer := []
  resultUuid : Option String := none
  changes : List (String × Option ℚ) := []
deriving DecidableEq

/-- Modelled from the spec: `findEloChangeForPlayer` is imported from
`api.js` but its definition is not under `src/`; per the spec's
`RawMatchRecord` ("two participants with identity/rating, winner indicator
or rating deltas"), it looks up the given participant's rating delta among
the match's `changes` by player uuid, yielding nothing when the uuid is
missing, the entry is absent, or the value is non-finite. -/
def findEloChangeForPlayer (changes : List (String × Option ℚ))
    (uuid : Option String) : Option ℚ :=
  match uuid with
  | none => none
  | some u =>
      match changes.lookup u with
      | some v => v
      | none => none

/-- Embedding of `MatchEvent` from `predictBacktest.ts` (the `match` field
is named `source` here, `match` being a keyword in Lean). -/
structure MatchEvent where
  key : String
  playedAt : ℚ
  playerA : String
  playerB : String
  winner : String
  source : RawMatch
deriving DecidableEq

/-- The two rejection reasons of `normalizeEvent`. -/
inductive RejectReason where
  | missingParticipants : RejectReason
  | missingWinner : RejectReason
deriving DecidableEq

/-- The result type of `normalizeEvent`: `invalid` is the TS `null` return,
`rejected r` is `{event: null, reason: r}`, `ok e` is `{event: e}`. -/
inductive NormalizeResult where
  | invalid : NormalizeResult
  | rejected : RejectReason → NormalizeResult
  | ok : MatchEvent → NormalizeResult
deriving DecidableEq

/-- Embedding of `dedupeByName` from `predictBacktest.ts` (keep the first
occurrence of each name). -/
def dedupeByNameGo (seen : List String) : List PlayerRef → List PlayerRef
  | [] => []
  | item :: rest =>
      if seen.contains item.name then dedupeByNameGo seen rest
      else item :: dedupeByNameGo (item.name :: seen) rest

def dedupeByName (items : List PlayerRef) : List PlayerRef :=
  dedupeByNameGo [] items

/-- Embedding of `winnerFromUuid` from `predictBacktest.ts`
(lines 518-526). -/
def winnerFromUuid (m : RawMatch) (players : List PlayerRef) : Option String :=
  match m.resultUuid with
  | none => none
  | some winnerUuid =>
      match players.find? (fun p => decide (p.uuid = some winnerUuid)) with
      | some p => some p.name
      | none => none

/-- Embedding of `winnerFromDelta` from `predictBacktest.ts`
(lines 528-546): resolve the winner from rating deltas, requiring the top
delta to be strictly greater than the runner-up's AND strictly positive. -/
def winnerFromDelta (m : RawMatch) (players : List PlayerRef) : Option String :=
  let deltas := players.map
    (fun p => (p.name, findEloChangeForPlayer m.changes p.uuid))
  let valid := deltas.filter (fun e => e.2.isSome)
  if valid.length < 2 then none
  else
    let sorted := JsUtil.sortByLe
      (fun a b => decide ((b.2.getD 0) ≤ (a.2.getD 0))) valid
    match sorted with
    | top :: second :: _ =>
        match top.2, second.2 with
        | some dTop, some dSecond =>
            if dTop ≤ dSecond then none
            else if dTop ≤ 0 then none
            else some top.1
        | _, _ => none
    | _ => none

/-- Embedding of `buildEventKey` from `predictBacktest.ts` (lines 562-568):
the source match id when present, else a seed from the timestamp and the
sorted participant names. -/
def buildEventKey (m : RawMatch) (playedAt : ℚ) (sortedPair : List String) :
    String :=
  match m.sourceId with
  | some id => "id:" ++ id
  | none => "seed:" ++ toString playedAt ++ ":" ++ String.intercalate ":" sortedPair

/-- Embedding of `normalizeEvent` from `predictBacktest.ts`
(lines 472-516). -/
def normalizeEvent (m : RawMatch) (pool : List String) : NormalizeResult :=
  match m.playedAt with
  | none => NormalizeResult.invalid
  | some playedAt =>
      if m.players.length < 2 then
        NormalizeResult.rejected RejectReason.missingParticipants
      else
        let mapped := (m.players.map (fun p =>
            ({ uuid := p.uuid, name := Api.normalizeName p.rawName } : PlayerRef))).filter
          (fun p => p.name ≠ "")
        if mapped.length < 2 then
          NormalizeResult.rejected RejectReason.missingParticipants
        else
          let unique := dedupeByName mapped
          if unique.length < 2 then
            NormalizeResult.rejected RejectReason.missingParticipants
          else
            match unique.take 2 with
            | [one, two] =>
                if ¬ (pool.contains one.name ∧ pool.contains two.name) then
                  NormalizeResult.rejected RejectReason.missingParticipants
                else
                  match (winnerFromUuid m [one, two]).orElse
                      (fun _ => winnerFromDelta m [one, two]) with
                  | none => NormalizeResult.rejected RejectReason.missingWinner
                  | some winner =>
                      let sortedPair :=
                        if Api.jsStringLe one.name two.name then [one.name, two.name]
                        else [two.name, one.name]
                      NormalizeResult.ok
                        { key := buildEventKey m playedAt sortedPair
                          playedAt := playedAt
                          playerA := one.name
                          playerB := two.name
                          winner := winner
                          source := m }
            | _ => NormalizeResult.rejected RejectReason.missingParticipants

/-- Embedding of `HistoryEntry` from `predictBacktest.ts` (the `match`
field is named `matchRec`). -/
structure HistoryEntry where
  playedAt : ℚ
  matchRec : RawMatch
deriving DecidableEq

/-- The accumulated state of the two nested loops of
`collectMatchEvents`: the insertion-ordered `seen` map and the two
rejection counters. -/
structure CollectState where
  seen : List MatchEvent := []
  missingParticipants : ℕ := 0
  missingWinner : ℕ := 0

/-- One iteration of the `collectMatchEvents` loop body
(`predictBacktest.ts` lines 441-461). -/
def collectStep (pool : List String) (st : CollectState) (entry : HistoryEntry) :
    CollectState :=
  match normalizeEvent entry.matchRec pool with
  | NormalizeResult.invalid =>
      { st with missingParticipants := st.missingParticipants + 1 }
  | NormalizeResult.rejected RejectReason.missingWinner =>
      { st with missingWinner := st.missingWinner + 1 }
  | NormalizeResult.rejected RejectReason.missingParticipants =>
      { st with missingParticipants := st.missingParticipants + 1 }
  | NormalizeResult.ok e =>
      if (st.seen.map (fun x => x.key)).contains e.key then st
      else { st with seen := st.seen ++ [e] }

/-- The rejection counters of `collectMatchEvents`. -/
structure CollectedRejected where
  missingParticipants : ℕ
  missingWinner : ℕ

/-- The result record of `collectMatchEvents`. -/
structure CollectedEvents where
  events : List MatchEvent
  rejected : CollectedRejected

/-- Embedding of `collectMatchEvents` from `predictBacktest.ts`
(lines 433-470): `histories` stands for `histories.values()`; the first
event seen per canonical key wins, and the distinct events are returned
sorted chronologically. -/
def collectMatchEvents (histories : List (List HistoryEntry))
    (pool : List String) : CollectedEvents :=
  let st := histories.foldl (fun st h => h.foldl (collectStep pool) st) {}
  { events := JsUtil.sortByLe (fun a b => decide (a.playedAt ≤ b.playedAt)) st.seen
    rejected :=
      { missingParticipants := st.missingParticipants
        missingWinner := st.missingWinner } }

end PredictBacktest

open PredictBacktest in
/-- C2 (amended): in backtest event reconstruction, for an event with two
participants whose rating deltas are both finite, `winnerFromDelta`
resolves a winner if and only if one participant's delta is strictly
greater than the other's AND strictly positive; the strictly-greater
condition alone is not sufficient, contrary to the original claim. -/
theorem C2_winner_from_delta_amended
    (m : RawMatch) (pA pB : PlayerRef) (dA dB : ℚ)
    (hA : findEloChangeForPlayer m.changes pA.uuid = some dA)
    (hB : findEloChangeForPlayer m.changes pB.uuid = some dB) :
    winnerFromDelta m [pA, pB] =
      (if dB < dA ∧ 0 < dA then some pA.name
       else if dA < dB ∧ 0 < dB then some pB.name
       else none) := by
  unfold winnerFromDelta
  simp only [List.map_cons, List.map_nil, hA, hB, List.filter,
    Option.isSome_some, List.length_cons, List.length_nil]
  norm_num
  simp only [JsUtil.sortByLe, List.foldr_cons, List.foldr_nil,
    JsUtil.insertByLe, Option.getD_some, decide_eq_true_eq]
  by_cases hle : dB ≤ dA
  · rw [if_pos (by simp [hle])]
    dsimp only
    by_cases heq : dA ≤ dB
    · rw [if_pos heq]
      have h1 : ¬(dB < dA ∧ 0 < dA) := fun ⟨h, _⟩ => absurd heq (not_le.mpr h)
      have h2 : ¬(dA < dB ∧ 0 < dB) := fun ⟨h, _⟩ => absurd hle (not_le.mpr h)
      rw [if_neg h1, if_neg h2]
    · rw [if_neg heq]
      by_cases hz : dA ≤ 0
      · rw [if_pos hz]
        have h1 : ¬(dB < dA ∧ 0 < dA) := fun ⟨_, h⟩ => absurd hz (not_le.mpr h)
        have h2 : ¬(dA < dB ∧ 0 < dB) := fun ⟨h, _⟩ => absurd hle (not_le.mpr h)
        rw [if_neg h1, if_neg h2]
      · rw [if_neg hz]
        rw [if_pos ⟨lt_of_not_le heq, lt_of_not_le hz⟩]
  · rw [if_neg (by simp [hle])]
    dsimp only
    have hlt : dA < dB := lt_of_not_le hle
    rw [if_neg (not_le.mpr hlt)]
    by_cases hz : dB ≤ 0
    · rw [if_pos hz]
      have h1 : ¬(dB < dA ∧ 0 < dA) := fun ⟨h, _⟩ => absurd h (not_lt.mpr (le_of_lt hlt))
      have h2 : ¬(dA < dB ∧ 0 < dB) := fun ⟨_, h⟩ => absurd hz (not_le.mpr h)
      rw [if_neg h1, if_neg h2]
    · rw [if_neg hz]
      have h1 : ¬(dB < dA ∧ 0 < dA) := fun ⟨h, _⟩ => absurd h (not_lt.mpr (le_of_lt hlt))
      rw [if_neg h1, if_pos ⟨hlt, lt_of_not_le hz⟩]

def c2Match : PredictBacktest.RawMatch :=
  { playedAt := some 10
    players :=
      [ { uuid := some "ua", rawName := "a" }
      , { uuid := some "ub", rawName := "b" } ]
    changes := [("ua", some (-1)), ("ub", some (-5))] }

def c2PlayerA : PredictBacktest.PlayerRef := { uuid := some "ua", name := "a" }

def c2PlayerB : PredictBacktest.PlayerRef := { uuid := some "ub", name := "b" }

open PredictBacktest in
/-- C2 counterexample: with finite deltas `-1` and `-5` and no winner id,
player A's delta is strictly greater than player B's, yet
`winnerFromDelta` resolves no winner — the code additionally requires the
winning delta to be strictly positive, which the claim explicitly
excludes. -/
theorem C2_winner_from_delta_counterexample :
    findEloChangeForPlayer c2Match.changes c2PlayerA.uuid = some (-1) ∧
    findEloChangeForPlayer c2Match.changes c2PlayerB.uuid = some (-5) ∧
    (-5 : ℚ) < -1 ∧
    winnerFromDelta c2Match [c2PlayerA, c2PlayerB] = none := by
  refine ⟨by decide, by decide, by decide, by decide⟩

open PredictBacktest in
theorem C2_winner_from_delta_amended_witness :
    (findEloChangeForPlayer c2Match.changes c2PlayerA.uuid = some (-1) ∧
      findEloChangeForPlayer c2Match.changes c2PlayerB.uuid = some (-5)) ∧
    winnerFromDelta c2Match [c2PlayerA, c2PlayerB] =
      (if (-5 : ℚ) < -1 ∧ (0:ℚ) < -1 then some c2PlayerA.name
       else if (-1 : ℚ) < -5 ∧ (0:ℚ) < -5 then some c2PlayerB.name
       else none) :=
  ⟨⟨by decide, by decide⟩,
    C2_winner_from_delta_amended c2Match c2PlayerA c2PlayerB (-1) (-5)
      (by decide) (by decide)⟩

namespace PredictBacktest

theorem collectStep_seen_counter_cases (pool : List String) (st : CollectState)
    (entry : HistoryEntry) :
    (collectStep pool st entry).seen = st.seen ∨
      ∃ e, normalizeEvent entry.matchRec pool = NormalizeResult.ok e ∧
        ¬ (st.seen.map (fun x => x.key)).contains e.key ∧
        (collectStep pool st entry).seen = st.seen ++ [e] := by
  unfold collectStep
  rcases hn : normalizeEvent entry.matchRec pool with _ | r | e
  · left; rfl
  · rcases r <;> left <;> rfl
  · dsimp only
    by_cases hc : (st.seen.map (fun x => x.key)).contains e.key
    · left; rw [if_pos hc]
    · right
      refine ⟨e, rfl, hc, ?_⟩
      rw [if_neg hc]

theorem collectStep_keys_nodup (pool : List String) (st : CollectState)
    (entry : HistoryEntry)
    (h : (st.seen.map (fun x => x.key)).Nodup) :
    ((collectStep pool st entry).seen.map (fun x => x.key)).Nodup := by
  rcases collectStep_seen_counter_cases pool st entry with hs | ⟨e, _, hc, hs⟩
  · rw [hs]; exact h
  · rw [hs, List.map_append]
    have hperm : List.Perm
        (st.seen.map (fun x => x.key) ++ [e.key])
        (e.key :: st.seen.map (fun x => x.key)) :=
      List.perm_append_singleton _ _
    refine hperm.nodup_iff.mpr (List.nodup_cons.mpr ⟨?_, h⟩)
    intro hmem
    exact hc (by simpa using hmem)

theorem collectStep_keys_mono (pool : List String) (st : CollectState)
    (entry : HistoryEntry) (k : String)
    (h : k ∈ st.seen.map (fun x => x.key)) :
    k ∈ (collectStep pool st entry).seen.map (fun x => x.key) := by
  rcases collectStep_seen_counter_cases pool st entry with hs | ⟨e, _, _, hs⟩
  · rw [hs]; exact h
  · rw [hs, List.map_append]
    exact List.mem_append_left _ h

theorem collectStep_key_mem (pool : List String) (st : CollectState)
    (entry : HistoryEntry) (e : MatchEvent)
    (h : normalizeEvent entry.matchRec pool = NormalizeResult.ok e) :
    e.key ∈ (collectStep pool st entry).seen.map (fun x => x.key) := by
  unfold collectStep
  rw [h]
  dsimp only
  by_cases hc : (st.seen.map (fun x => x.key)).contains e.key
  · rw [if_pos hc]
    simpa using hc
  · rw [if_neg hc]
    rw [List.map_append]
    exact List.mem_append_right _ (by simp)

theorem foldl_collectStep_keys_nodup (pool : List String) :
    ∀ (l : List HistoryEntry) (st : CollectState),
      (st.seen.map (fun x => x.key)).Nodup →
      ((l.foldl (collectStep pool) st).seen.map (fun x => x.key)).Nodup
  | [], _, h => h
  | entry :: rest, st, h =>
      foldl_collectStep_keys_nodup pool rest _
        (collectStep_keys_nodup pool st entry h)

theorem foldl_collectStep_keys_mono (pool : List String) :
    ∀ (l : List HistoryEntry) (st : CollectState) (k : String),
      k ∈ st.seen.map (fun x => x.key) →
      k ∈ (l.foldl (collectStep pool) st).seen.map (fun x => x.key)
  | [], _, _, h => h
  | entry :: rest, st, k, h =>
      foldl_collectStep_keys_mono pool rest _ k
        (collectStep_keys_mono pool st entry k h)

theorem foldl_collectStep_key_mem (pool : List String) :
    ∀ (l : List HistoryEntry) (st : CollectState) (entry : HistoryEntry)
      (e : MatchEvent), entry ∈ l →
      normalizeEvent entry.matchRec pool = NormalizeResult.ok e →
      e.key ∈ (l.foldl (collectStep pool) st).seen.map (fun x => x.key)
  | [], _, _, _, hmem, _ => absurd hmem (List.not_mem_nil _)
  | entry0 :: rest, st, entry, e, hmem, hok => by
      rcases List.mem_cons.mp hmem with heq | htail
      · subst heq
        exact foldl_collectStep_keys_mono pool rest _ e.key
          (collectStep_key_mem pool st entry e hok)
      · exact foldl_collectStep_key_mem pool rest _ entry e htail hok

theorem histories_foldl_keys_nodup (pool : List String) :
    ∀ (hs : List (List HistoryEntry)) (st : CollectState),
      (st.seen.map (fun x => x.key)).Nodup →
      ((hs.foldl (fun st h => h.foldl (collectStep pool) st) st).seen.map
        (fun x => x.key)).Nodup
  | [], _, h => h
  | l :: rest, st, h =>
      histories_foldl_keys_nodup pool rest _
        (foldl_collectStep_keys_nodup pool l st h)

theorem histories_foldl_keys_mono (pool : List String) :
    ∀ (hs : List (List HistoryEntry)) (st : CollectState) (k : String),
      k ∈ st.seen.map (fun x => x.key) →
      k ∈ (hs.foldl (fun st h => h.foldl (collectStep pool) st) st).seen.map
        (fun x => x.key)
  | [], _, _, h => h
  | l :: rest, st, k, h =>
      histories_foldl_keys_mono pool rest _ k
        (foldl_collectStep_keys_mono pool l st k h)

theorem histories_foldl_key_mem (pool : List String) :
    ∀ (hs : List (List HistoryEntry)) (st : CollectState)
      (h : List HistoryEntry) (entry : HistoryEntry) (e : MatchEvent),
      h ∈ hs → entry ∈ h →
      normalizeEvent entry.matchRec pool = NormalizeResult.ok e →
      e.key ∈ (hs.foldl (fun st h => h.foldl (collectStep pool) st) st).seen.map
        (fun x => x.key)
  | [], _, _, _, _, hmem, _, _ => absurd hmem (List.not_mem_nil _)
  | l :: rest, st, h, entry, e, hmem, hentry, hok => by
      rcases List.mem_cons.mp hmem with heq | htail
      · subst heq
        exact histories_foldl_keys_mono pool rest _ e.key
          (foldl_collectStep_key_mem pool h st entry e hentry hok)
      · exact histories_foldl_key_mem pool rest _ h entry e htail hentry hok

end PredictBacktest

open PredictBacktest in
/-- C6: in backtest sample construction, events are de-duplicated by a
canonical key — the source match id when present, otherwise a seed built
from the timestamp and the sorted participant names — so the collected
event list has pairwise-distinct keys, and any event reconstructible from
an entry of any (hence either) participant's fetched history appears
under its key exactly once in `consideredMatches`
(`consideredMatches = collected.events.length`). -/
theorem C6_event_deduplication (histories : List (List HistoryEntry))
    (pool : List String) :
    ((collectMatchEvents histories pool).events.map (fun e => e.key)).Nodup ∧
    (∀ h ∈ histories, ∀ entry ∈ h, ∀ e,
      normalizeEvent entry.matchRec pool = NormalizeResult.ok e →
      ∃ e2 ∈ (collectMatchEvents histories pool).events, e2.key = e.key) ∧
    (∀ (m : RawMatch) (t : ℚ) (pair : List String),
      buildEventKey m t pair =
        match m.sourceId with
        | some i => "id:" ++ i
        | none => "seed:" ++ toString t ++ ":" ++ String.intercalate ":" pair) := by
  have hperm := JsUtil.sortByLe_perm
    (fun a b : MatchEvent => decide (a.playedAt ≤ b.playedAt))
    ((histories.foldl (fun st (h : List HistoryEntry) =>
      h.foldl (collectStep pool) st) ({} : CollectState)).seen)
  refine ⟨?_, ?_, ?_⟩
  · have hnod := histories_foldl_keys_nodup pool histories {} (by simp)
    exact ((hperm.map (fun e => e.key)).nodup_iff).mpr hnod
  · intro h hmem entry hentry e hok
    have hkey := histories_foldl_key_mem pool histories {} h entry e hmem hentry hok
    rcases List.mem_map.mp hkey with ⟨e2, he2, hkeq⟩
    exact ⟨e2, (JsUtil.mem_sortByLe _ _ e2).mpr he2, hkeq⟩
  · intro m t pair
    unfold buildEventKey
    rcases hs : m.sourceId with _ | i <;> rfl

def c6Match : PredictBacktest.RawMatch :=
  { sourceId := some "m1"
    playedAt := some 5
    players :=
      [ { uuid := some "u1", rawName := "Alice" }
      , { uuid := some "u2", rawName := "Bob" } ]
    resultUuid := some "u1" }

def c6Entry : PredictBacktest.HistoryEntry := { playedAt := 5, matchRec := c6Match }

def c6Histories : List (List PredictBacktest.HistoryEntry) := [[c6Entry], [c6Entry]]

def c6Pool : List String := ["alice", "bob"]

def c6Event : PredictBacktest.MatchEvent :=
  { key := "id:m1"
    playedAt := 5
    playerA := "alice"
    playerB := "bob"
    winner := "alice"
    source := c6Match }

open PredictBacktest in
theorem C6_event_deduplication_witness :
    ([c6Entry] ∈ c6Histories ∧ c6Entry ∈ [c6Entry] ∧
      normalizeEvent c6Entry.matchRec c6Pool = NormalizeResult.ok c6Event) ∧
    ∃ e2 ∈ (collectMatchEvents c6Histories c6Pool).events, e2.key = c6Event.key :=
  ⟨⟨by decide, by decide, by decide⟩,
    (C6_event_deduplication c6Histories c6Pool).2.1 [c6Entry] (by decide)
      c6Entry (by decide) c6Event (by decide)⟩

namespace PredictBacktest

/-- Embedding of `PredictionSample` from `predictBacktest.ts` (the
`0 | 1` label is a `Bool`, `true` standing for 1). -/
structure PredictionSample where
  matchKey : String
  playedAt : ℚ
  playerA : String
  playerB : String
  winner : String
  probabilityA : ℚ
  confidence : ℚ
  labelA : Bool
deriving DecidableEq

/-- Embedding of `BinaryMetrics` from `predictBacktest.ts`. -/
structure BinaryMetrics where
  count : ℕ
  accuracy : ℚ
  avgConfidence : ℚ
  brier : ℚ
  logLoss : ℚ
deriving DecidableEq

/-- Embedding of `PlattModel` from `predictBacktest.ts`. -/
structure PlattModel where
  a : ℚ
  b : ℚ
deriving DecidableEq

/-- The mutable locals of the `computeBinaryMetrics` loop. -/
structure MetricsAccum where
  correct : ℕ := 0
  brier : ℚ := 0
  logLoss : ℚ := 0
  confidence : ℚ := 0

/-- One iteration of the `computeBinaryMetrics` loop
(`predictBacktest.ts` lines 280-289); `logF` models `Math.log`. -/
def metricsStep (logF : ℚ → ℚ) (acc : MetricsAccum) (s : PredictionSample) :
    MetricsAccum :=
  let p := JsUtil.clamp s.probabilityA (1/1000000) (1 - 1/1000000)
  let y : ℚ := if s.labelA then 1 else 0
  let predicted : ℚ := if 1/2 ≤ p then 1 else 0
  let err := p - y
  { correct := if predicted = y then acc.correct + 1 else acc.correct
    brier := acc.brier + err * err
    logLoss := acc.logLoss + -(y * logF p + (1 - y) * logF (1 - p))
    confidence := acc.confidence + JsUtil.clamp s.confidence 0 1 }

/-- Embedding of `computeBinaryMetrics` from `predictBacktest.ts`
(lines 271-298). -/
def computeBinaryMetrics (logF : ℚ → ℚ) (samples : List PredictionSample) :
    BinaryMetrics :=
  if samples.length = 0 then
    { count := 0, accuracy := 0, avgConfidence := 0, brier := 0, logLoss := 0 }
  else
    let acc := samples.foldl (metricsStep logF) {}
    { count := samples.length
      accuracy := (acc.correct : ℚ) / (samples.length : ℚ)
      avgConfidence := acc.confidence / (samples.length : ℚ)
      brier := acc.brier / (samples.length : ℚ)
      logLoss := acc.logLoss / (samples.length : ℚ) }

/-- The effective train fraction of `runPredictBacktest`
(`predictBacktest.ts` line 120): `clamp(options.trainFraction ?? 0.8,
0.5, 0.95)`. -/
def backtestTrainFraction (trainFraction : Option ℚ) : ℚ :=
  JsUtil.clamp (trainFraction.getD (8/10)) (1/2) (95/100)

/-- The chronological sort and train/test split of `runPredictBacktest`
(`predictBacktest.ts` lines 152-156): sort ascending by `playedAt`, take
`splitIndex = max(1, min(n - 1, floor(n * trainFraction)))` as train and
the rest as test when `n ≥ 2`; otherwise use the whole (sorted) list as
both splits. -/
def backtestSplit (predictions : List PredictionSample)
    (trainFraction : Option ℚ) :
    List PredictionSample × List PredictionSample :=
  let tf := backtestTrainFraction trainFraction
  let sorted := JsUtil.sortByLe (fun a b => decide (a.playedAt ≤ b.playedAt))
    predictions
  let n : ℤ := sorted.length
  let splitIndex : ℤ := max 1 (min (n - 1) ⌊(n : ℚ) * tf⌋)
  let hasSplit := 2 ≤ sorted.length
  ( if hasSplit then sorted.take splitIndex.toNat else sorted
  , if hasSplit then sorted.drop splitIndex.toNat else sorted )

end PredictBacktest

open PredictBacktest in
/-- C10 (implicit): with at least 2 scored predictions, the backtest's
train and test splits are disjoint segments that concatenate to the
chronologically sorted prediction list, both non-empty, with train size
`min(max(1, floor(n * trainFraction)), n - 1)`; with fewer than 2
predictions the same (possibly singleton) sorted list is used as both
splits, so train and test overlap. -/
theorem C10_backtest_train_test_split (predictions : List PredictionSample)
    (trainFraction : Option ℚ) :
    (2 ≤ predictions.length →
      (backtestSplit predictions trainFraction).1 ++
          (backtestSplit predictions trainFraction).2 =
        JsUtil.sortByLe (fun a b => decide (a.playedAt ≤ b.playedAt)) predictions ∧
      ((backtestSplit predictions trainFraction).1.length : ℤ) =
        min (max 1 ⌊(predictions.length : ℚ) * backtestTrainFraction trainFraction⌋)
          ((predictions.length : ℤ) - 1) ∧
      (backtestSplit predictions trainFraction).1 ≠ [] ∧
      (backtestSplit predictions trainFraction).2 ≠ []) ∧
    (predictions.length < 2 →
      (backtestSplit predictions trainFraction).1 =
        JsUtil.sortByLe (fun a b => decide (a.playedAt ≤ b.playedAt)) predictions ∧
      (backtestSplit predictions trainFraction).2 =
        JsUtil.sortByLe (fun a b => decide (a.playedAt ≤ b.playedAt)) predictions) := by
  have hlen : (JsUtil.sortByLe
      (fun a b : PredictionSample => decide (a.playedAt ≤ b.playedAt))
      predictions).length = predictions.length :=
    JsUtil.length_sortByLe _ _
  set sorted := JsUtil.sortByLe
    (fun a b : PredictionSample => decide (a.playedAt ≤ b.playedAt))
    predictions with hsorted
  unfold backtestSplit
  rw [← hsorted]
  dsimp only
  rw [hlen]
  simp only [Int.cast_natCast]
  constructor
  · intro h2
    rw [if_pos h2, if_pos h2]
    have htf_lb : 1/2 ≤ backtestTrainFraction trainFraction :=
      JsUtil.le_clamp _ _ _ (by norm_num)
    have hn2 : (2:ℚ) ≤ (predictions.length : ℚ) := by exact_mod_cast h2
    have hf1 : (1 : ℤ) ≤ ⌊(predictions.length : ℚ) * backtestTrainFraction trainFraction⌋ := by
      apply Int.le_floor.mpr
      push_cast
      calc (1:ℚ) = 2 * (1/2) := by norm_num
        _ ≤ (predictions.length : ℚ) * backtestTrainFraction trainFraction :=
          mul_le_mul hn2 htf_lb (by norm_num) (by positivity)
    set f : ℤ := ⌊(predictions.length : ℚ) * backtestTrainFraction trainFraction⌋
      with hfdef
    have hsi : max 1 (min ((predictions.length : ℤ) - 1) f) =
        min (max 1 f) ((predictions.length : ℤ) - 1) := by omega
    have hsi_pos : (1:ℤ) ≤ max 1 (min ((predictions.length : ℤ) - 1) f) := le_max_left _ _
    have hsi_le : max 1 (min ((predictions.length : ℤ) - 1) f) ≤
        (predictions.length : ℤ) - 1 := by omega
    set si : ℤ := max 1 (min ((predictions.length : ℤ) - 1) f) with hsidef
    have hsitn : (si.toNat : ℤ) = si := Int.toNat_of_nonneg (by omega)
    have hsplit_len : si.toNat ≤ sorted.length := by
      rw [hlen]; omega
    refine ⟨List.take_append_drop _ _, ?_, ?_, ?_⟩
    · rw [List.length_take]
      have : min si.toNat sorted.length = si.toNat := min_eq_left hsplit_len
      rw [this]
      rw [hsitn, hsi]
    · intro hempty
      have := congrArg List.length hempty
      rw [List.length_take] at this
      simp only [List.length_nil] at this
      rw [min_eq_left hsplit_len] at this
      omega
    · intro hempty
      have := congrArg List.length hempty
      rw [List.length_drop, hlen] at this
      simp only [List.length_nil] at this
      omega
  · intro h2
    rw [if_neg (by omega), if_neg (by omega)]
    exact ⟨rfl, rfl⟩

def c10P1 : PredictBacktest.PredictionSample :=
  { matchKey := "k1", playedAt := 1, playerA := "a", playerB := "b"
    winner := "a", probabilityA := 1/2, confidence := 1/2, labelA := true }

def c10P2 : PredictBacktest.PredictionSample :=
  { matchKey := "k2", playedAt := 2, playerA := "a", playerB := "b"
    winner := "b", probabilityA := 1/2, confidence := 1/2, labelA := false }

open PredictBacktest in
theorem C10_backtest_train_test_split_witness :
    2 ≤ [c10P1, c10P2].length ∧
      ((backtestSplit [c10P1, c10P2] none).1 ++
          (backtestSplit [c10P1, c10P2] none).2 =
        JsUtil.sortByLe (fun a b => decide (a.playedAt ≤ b.playedAt))
          [c10P1, c10P2] ∧
      ((backtestSplit [c10P1, c10P2] none).1.length : ℤ) =
        min (max 1 ⌊(([c10P1, c10P2].length : ℕ) : ℚ) * backtestTrainFraction none⌋)
          (([c10P1, c10P2].length : ℤ) - 1) ∧
      (backtestSplit [c10P1, c10P2] none).1 ≠ [] ∧
      (backtestSplit [c10P1, c10P2] none).2 ≠ []) :=
  ⟨by decide, (C10_backtest_train_test_split [c10P1, c10P2] none).1 (by decide)⟩

namespace PredictTrain

/-- Embedding of the trainer's `LogisticModel` (`predictTrain.ts`): the
weights record is an association list over the canonical feature names. -/
structure LogisticModel where
  intercept : ℚ
  weights : List (String × ℚ)
deriving DecidableEq

/-- The `improved` flag of the trainer (`predictTrain.ts` lines 86-88):
the trained+calibrated model must beat the heuristic on BOTH log-loss and
Brier score, strictly. -/
def improvedOverHeuristic
    (trainedMetrics heuristicMetrics : PredictBacktest.BinaryMetrics) : Bool :=
  decide (trainedMetrics.logLoss < heuristicMetrics.logLoss) &&
    decide (trainedMetrics.brier < heuristicMetrics.brier)

/-- The artifact assembled by the trainer (`predictTrain.ts` lines 90-110);
`createdAtIso` models `new Date().toISOString()`. -/
def buildTrainedArtifact (createdAtIso : String) (trained : LogisticModel)
    (calibration : Option PredictBacktest.PlattModel)
    (sampleCount trainCount testCount : ℕ)
    (heuristicMetrics trainedMetrics : PredictBacktest.BinaryMetrics) :
    PredictModel.PredictModelArtifact :=
  { version := 1
    createdAt := createdAtIso
    features := PredictModel.featureNames
    intercept := trained.intercept
    weights := trained.weights
    calibration := calibration.map (fun c => { a := c.a, b := c.b })
    training := some
      { sampleCount := sampleCount
        trainCount := trainCount
        testCount := testCount
        heuristic :=
          { testBrier := heuristicMetrics.brier
            testLogLoss := heuristicMetrics.logLoss }
        trained :=
          { testBrier := trainedMetrics.brier
            testLogLoss := trainedMetrics.logLoss } } }

/-- The trainer's persistence decision (`predictTrain.ts` lines 123-130):
the artifact file is written (modelled by `some artifact`) unless the
model failed to improve on the heuristic and `--force-save` is absent. -/
def persistedArtifact (createdAtIso : String) (trained : LogisticModel)
    (calibration : Option PredictBacktest.PlattModel)
    (sampleCount trainCount testCount : ℕ)
    (heuristicMetrics trainedMetrics : PredictBacktest.BinaryMetrics)
    (forceSave : Bool) : Option PredictModel.PredictModelArtifact :=
  let artifact := buildTrainedArtifact createdAtIso trained calibration
    sampleCount trainCount testCount heuristicMetrics trainedMetrics
  if ¬ improvedOverHeuristic trainedMetrics heuristicMetrics ∧ ¬ forceSave then
    none
  else some artifact

end PredictTrain

open PredictTrain in
/-- C7: the trainer persists a model artifact if and only if the
trained-and-calibrated model's test metrics beat the heuristic's test
metrics on both Brier score and log-loss (both strictly lower), or the
explicit `--force-save` override is set; otherwise no artifact file is
written. -/
theorem C7_trainer_persist_condition (createdAtIso : String)
    (trained : LogisticModel) (calibration : Option PredictBacktest.PlattModel)
    (sampleCount trainCount testCount : ℕ)
    (heuristicMetrics trainedMetrics : PredictBacktest.BinaryMetrics)
    (forceSave : Bool) :
    (persistedArtifact createdAtIso trained calibration sampleCount trainCount
        testCount heuristicMetrics trainedMetrics forceSave).isSome ↔
      ((trainedMetrics.brier < heuristicMetrics.brier ∧
        trainedMetrics.logLoss < heuristicMetrics.logLoss) ∨ forceSave = true) := by
  unfold persistedArtifact improvedOverHeuristic
  by_cases h1 : trainedMetrics.logLoss < heuristicMetrics.logLoss <;>
    by_cases h2 : trainedMetrics.brier < heuristicMetrics.brier <;>
    rcases forceSave with _ | _ <;>
    simp [h1, h2]
